import Mathlib

/-!
Verification of the core simulation of `reinforcing-mars`
(`src/simulation/src/`): the deferred-action priority queue, the
phase state machine, the turn scheduler, the draft rotation engine and
the global-parameter tracks, shallowly embedded in Lean from the Rust
sources.

Machine integers (`u8`/`u32`/`u64`) are modelled as `Nat` and `i32` as
`Int`; all arithmetic performed by the modelled code stays far away from
the wrap-around boundaries, and where Rust saturates (`saturating_sub`)
the `Nat` truncated subtraction coincides with it.
-/

set_option linter.unusedVariables false

namespace RMars

/-- Priority levels for deferred actions
(`src/simulation/src/deferred/priority.rs`).  Lower numeric value =
higher priority = execute first. -/
inductive Priority where
  | Cost
  | DrawCards
  | PlaceOceanTile
  | Default
  | GainResourceOrProduction
  | LoseResourceOrProduction
  | DiscardCards
  | BackOfTheLine
deriving DecidableEq, Repr

/-- `Priority::value` — the numeric discriminants of the Rust enum. -/
def Priority.value : Priority → Nat
  | .Cost => 0
  | .DrawCards => 10
  | .PlaceOceanTile => 20
  | .Default => 50
  | .GainResourceOrProduction => 60
  | .LoseResourceOrProduction => 70
  | .DiscardCards => 80
  | .BackOfTheLine => 100

/-- Result of executing a deferred action
(`src/simulation/src/deferred/deferred_action.rs`). -/
inductive DeferredActionResult where
  | Completed
  | NeedsInput
  | Remove
deriving DecidableEq, Repr

/-- Entry in the deferred action queue (`deferred/queue.rs`): an action
together with its insertion sequence number. -/
structure QueueEntry (α : Type) where
  action : α
  insertion_order : Nat
deriving DecidableEq, Repr

/-- `QueueEntry::cmp`: compare two queue entries, first by priority value
(lower value first), then by insertion order (earlier first).  The
action's `priority()` trait method is passed in as `pri`. -/
def QueueEntry.cmp {α : Type} (pri : α → Priority) (a b : QueueEntry α) : Ordering :=
  let priority_cmp := compare (pri a.action).value (pri b.action).value
  if priority_cmp ≠ Ordering.eq then priority_cmp
  else compare a.insertion_order b.insertion_order

/-- Rust's slice `binary_search_by` over the index range `[left, right)`,
as invoked by `DeferredActionQueue::push`: returns `.ok i` when the
comparator answers `eq` at `i`, otherwise `.error i` with `i` the
insertion point.  The loop is given as structural recursion on a fuel
bound; every iteration shrinks `right - left` by at least one, so any
fuel of at least `right - left` (the caller passes the list length)
reproduces the loop exactly. -/
def binarySearchGo {β : Type} (f : β → Ordering) (l : List β) :
    Nat → Nat → Nat → Except Nat Nat
  | 0, left, _ => Except.error left
  | fuel + 1, left, right =>
    if left < right then
      let mid := left + (right - left) / 2
      match l[mid]? with
      | none => Except.error left
      | some x =>
        match f x with
        | .lt => binarySearchGo f l fuel (mid + 1) right
        | .gt => binarySearchGo f l fuel left mid
        | .eq => Except.ok mid
    else
      Except.error left

/-- The deferred-action priority queue (`deferred/queue.rs`).  The Rust
`VecDeque<QueueEntry>` is modelled as a list with its front at the head;
`insertion_counter` is the `u64` counter handing out sequence numbers. -/
structure DeferredActionQueue (α : Type) where
  queue : List (QueueEntry α)
  insertion_counter : Nat
deriving DecidableEq, Repr

namespace DeferredActionQueue

/-- `DeferredActionQueue::new`. -/
def new {α : Type} : DeferredActionQueue α := ⟨[], 0⟩

/-- `DeferredActionQueue::is_empty`. -/
def is_empty {α : Type} (q : DeferredActionQueue α) : Bool := q.queue.isEmpty

/-- `DeferredActionQueue::len`. -/
def len {α : Type} (q : DeferredActionQueue α) : Nat := q.queue.length

/-- `DeferredActionQueue::push`: tag the action with the current counter,
bump the counter, and insert the entry at the position found by
`binary_search_by` (the `Err` insertion point is used as-is,
`unwrap_or_else(|pos| pos)`). -/
def push {α : Type} (pri : α → Priority) (q : DeferredActionQueue α) (action : α) :
    DeferredActionQueue α :=
  let insertion_order := q.insertion_counter
  let entry : QueueEntry α := ⟨action, insertion_order⟩
  let pos :=
    match binarySearchGo (fun e => QueueEntry.cmp pri e entry) q.queue
        q.queue.length 0 q.queue.length with
    | .ok p => p
    | .error p => p
  ⟨q.queue.insertIdx pos entry, q.insertion_counter + 1⟩

/-- `DeferredActionQueue::execute_next`: pop the front entry, execute it
against the game state `s`, and re-insert the same entry at the front
when it returns `NeedsInput`; `Completed`, `Remove` and errors leave it
popped.  Returns the queue, the updated state, and the result
(`none` when the queue was empty). -/
def executeNext {α σ : Type} (exec : α → σ → σ × Except String DeferredActionResult)
    (q : DeferredActionQueue α) (s : σ) :
    DeferredActionQueue α × σ × Option (Except String DeferredActionResult) :=
  match q.queue with
  | [] => (q, s, none)
  | entry :: rest =>
    let r := exec entry.action s
    match r.2 with
    | .ok .NeedsInput => (⟨entry :: rest, q.insertion_counter⟩, r.1, some r.2)
    | _ => (⟨rest, q.insertion_counter⟩, r.1, some r.2)

/-- Loop body of `DeferredActionQueue::execute_all`: repeatedly execute
the front entry; `Completed` / `Remove` / execution error count as
executed and the loop continues; `NeedsInput` stops the loop with the
entry back at the front. -/
def executeAllGo {α σ : Type} (exec : α → σ → σ × Except String DeferredActionResult) :
    List (QueueEntry α) → σ → Nat → List (QueueEntry α) × σ × Nat
  | [], s, executed => ([], s, executed)
  | entry :: rest, s, executed =>
    let r := exec entry.action s
    match r.2 with
    | .ok .Completed => executeAllGo exec rest r.1 (executed + 1)
    | .ok .NeedsInput => (entry :: rest, r.1, executed)
    | .ok .Remove => executeAllGo exec rest r.1 (executed + 1)
    | .error _ => executeAllGo exec rest r.1 (executed + 1)

/-- `DeferredActionQueue::execute_all`: drain until the queue is empty or
an action needs input; returns the number of actions executed. -/
def executeAll {α σ : Type} (exec : α → σ → σ × Except String DeferredActionResult)
    (q : DeferredActionQueue α) (s : σ) : DeferredActionQueue α × σ × Nat :=
  let r := executeAllGo exec q.queue s 0
  (⟨r.1, q.insertion_counter⟩, r.2.1, r.2.2)

end DeferredActionQueue

/-- Auxiliary view of `Except` as a sum, used only to derive decidable
equality for scripted results. -/
def exceptToSum {ε α : Type} : Except ε α → ε ⊕ α
  | .error e => .inl e
  | .ok a => .inr a

instance {ε α : Type} [DecidableEq ε] [DecidableEq α] : DecidableEq (Except ε α) :=
  fun a b =>
    decidable_of_iff (exceptToSum a = exceptToSum b)
      (by cases a <;> cases b <;> simp [exceptToSum])

/-- A deferred action with a fixed priority whose execution returns a
fixed result: this is `SimpleDeferredAction` (`deferred/deferred_action.rs`)
instantiated with a constant closure, exactly as the queue's own unit
tests build their actions.  `sid` identifies the effect so that the
execution order can be observed. -/
structure ScriptedEffect where
  sid : Nat
  pri : Priority
  res : Except String DeferredActionResult
deriving DecidableEq, Repr

/-- The `priority()` trait method of a scripted effect. -/
def ScriptedEffect.priority (e : ScriptedEffect) : Priority := e.pri

/-- Executing a scripted effect over a log state: the attempt is recorded
in the log and the scripted result is returned; the game state proper is
untouched (a constant closure). -/
def scriptedExec (e : ScriptedEffect) (log : List ScriptedEffect) :
    List ScriptedEffect × Except String DeferredActionResult :=
  (log ++ [e], e.res)

/-! ### Order of the deferred queue

The queue's total order is the lexicographic order on
(priority value, insertion sequence number). -/

/-- Sort key of a queue entry: (priority value, insertion sequence). -/
def entryKey {α : Type} (pri : α → Priority) (e : QueueEntry α) : Nat × Nat :=
  ((pri e.action).value, e.insertion_order)

/-- Strict lexicographic order on sort keys. -/
def keyLt (k k' : Nat × Nat) : Prop :=
  k.1 < k'.1 ∨ (k.1 = k'.1 ∧ k.2 < k'.2)

instance (k k' : Nat × Nat) : Decidable (keyLt k k') := by
  unfold keyLt; infer_instance

theorem keyLt_trans {a b c : Nat × Nat} (h1 : keyLt a b) (h2 : keyLt b c) :
    keyLt a c := by
  unfold keyLt at h1 h2 ⊢; omega

theorem cmp_eq_lt_iff {α : Type} (pri : α → Priority) (a b : QueueEntry α) :
    QueueEntry.cmp pri a b = .lt ↔ keyLt (entryKey pri a) (entryKey pri b) := by
  unfold QueueEntry.cmp entryKey keyLt
  rcases Nat.lt_trichotomy (pri a.action).value (pri b.action).value with h | h | h
  · have hc : compare (pri a.action).value (pri b.action).value = .lt :=
      Nat.compare_eq_lt.mpr h
    simp only [hc]
    simp
    omega
  · have hc : compare (pri a.action).value (pri b.action).value = .eq :=
      Nat.compare_eq_eq.mpr h
    simp only [hc]
    simp [Nat.compare_eq_lt]
    omega
  · have hc : compare (pri a.action).value (pri b.action).value = .gt :=
      Nat.compare_eq_gt.mpr h
    simp only [hc]
    simp
    omega

theorem cmp_eq_gt_iff {α : Type} (pri : α → Priority) (a b : QueueEntry α) :
    QueueEntry.cmp pri a b = .gt ↔ keyLt (entryKey pri b) (entryKey pri a) := by
  unfold QueueEntry.cmp entryKey keyLt
  rcases Nat.lt_trichotomy (pri a.action).value (pri b.action).value with h | h | h
  · have hc : compare (pri a.action).value (pri b.action).value = .lt :=
      Nat.compare_eq_lt.mpr h
    simp only [hc]
    simp
    omega
  · have hc : compare (pri a.action).value (pri b.action).value = .eq :=
      Nat.compare_eq_eq.mpr h
    simp only [hc]
    simp [Nat.compare_eq_gt]
    omega
  · have hc : compare (pri a.action).value (pri b.action).value = .gt :=
      Nat.compare_eq_gt.mpr h
    simp only [hc]
    simp
    omega

theorem cmp_eq_eq_iff {α : Type} (pri : α → Priority) (a b : QueueEntry α) :
    QueueEntry.cmp pri a b = .eq ↔ entryKey pri a = entryKey pri b := by
  unfold QueueEntry.cmp entryKey
  rcases Nat.lt_trichotomy (pri a.action).value (pri b.action).value with h | h | h
  · have hc : compare (pri a.action).value (pri b.action).value = .lt :=
      Nat.compare_eq_lt.mpr h
    simp only [hc]
    simp [Prod.ext_iff]
    omega
  · have hc : compare (pri a.action).value (pri b.action).value = .eq :=
      Nat.compare_eq_eq.mpr h
    simp only [hc]
    simp [Nat.compare_eq_eq, Prod.ext_iff]
    omega
  · have hc : compare (pri a.action).value (pri b.action).value = .gt :=
      Nat.compare_eq_gt.mpr h
    simp only [hc]
    simp [Prod.ext_iff]
    omega

/-- Specification of `binarySearchGo` for a comparator that never answers
`eq` and whose `lt` answers form a prefix of the list (which is the case
for the sorted queue): the search returns the partition point. -/
theorem binarySearchGo_insertion {β : Type} (f : β → Ordering) (l : List β)
    (hne : ∀ x ∈ l, f x ≠ .eq)
    (hpre : ∀ i j (hi : i < l.length) (hj : j < l.length), i ≤ j →
      f (l.get ⟨j, hj⟩) = .lt → f (l.get ⟨i, hi⟩) = .lt) :
    ∀ fuel left right, right - left ≤ fuel → left ≤ right → right ≤ l.length →
    (∀ i (hi : i < l.length), i < left → f (l.get ⟨i, hi⟩) = .lt) →
    (∀ i (hi : i < l.length), right ≤ i → f (l.get ⟨i, hi⟩) ≠ .lt) →
    ∃ k, binarySearchGo f l fuel left right = .error k ∧ k ≤ l.length ∧
      (∀ i (hi : i < l.length), i < k → f (l.get ⟨i, hi⟩) = .lt) ∧
      (∀ i (hi : i < l.length), k ≤ i → f (l.get ⟨i, hi⟩) ≠ .lt) := by
  intro fuel
  induction fuel with
  | zero =>
    intro left right h1 h2 h3 hL hR
    refine ⟨left, rfl, by omega, hL, ?_⟩
    intro i hi hki
    exact hR i hi (by omega)
  | succ n ih =>
    intro left right h1 h2 h3 hL hR
    by_cases hlr : left < right
    · have hmid : left + (right - left) / 2 < l.length := by omega
      have hget : l[left + (right - left) / 2]? = some (l.get ⟨_, hmid⟩) := by
        rw [List.getElem?_eq_getElem hmid]
        simp
      rcases hfm : f (l.get ⟨left + (right - left) / 2, hmid⟩) with _ | _ | _
      · -- comparator answers `lt` at the midpoint: search the upper half
        have step := ih (left + (right - left) / 2 + 1) right (by omega) (by omega) h3
          (fun i hi hik => by
            by_cases hc : i < left
            · exact hL i hi hc
            · exact hpre i (left + (right - left) / 2) hi hmid (by omega) hfm)
          hR
        rcases step with ⟨k, hk, hk1, hk2, hk3⟩
        refine ⟨k, ?_, hk1, hk2, hk3⟩
        simp only [binarySearchGo]
        rw [if_pos hlr]
        simp only [hget]
        rw [hfm]
        exact hk
      · -- comparator answers `eq`: impossible, keys are distinct
        exact absurd hfm (hne _ (l.get_mem _ _))
      · -- comparator answers `gt` at the midpoint: search the lower half
        have step := ih left (left + (right - left) / 2) (by omega) (by omega) (by omega)
          hL
          (fun i hi hik => by
            intro hcon
            have := hpre (left + (right - left) / 2) i hmid hi hik hcon
            rw [this] at hfm
            exact absurd hfm (by simp))
        rcases step with ⟨k, hk, hk1, hk2, hk3⟩
        refine ⟨k, ?_, hk1, hk2, hk3⟩
        simp only [binarySearchGo]
        rw [if_pos hlr]
        simp only [hget]
        rw [hfm]
        exact hk
    · refine ⟨left, ?_, by omega, hL, ?_⟩
      · simp only [binarySearchGo]
        rw [if_neg hlr]
      · intro i hi hki
        exact hR i hi (by omega)

/-- `insertIdx` at an index within the list splits it as take/cons/drop. -/
theorem insertIdx_eq_take_cons_drop {β : Type} (a : β) :
    ∀ (k : Nat) (l : List β), k ≤ l.length →
      l.insertIdx k a = l.take k ++ a :: l.drop k := by
  intro k
  induction k with
  | zero => intro l h; simp
  | succ n ih =>
    intro l h
    cases l with
    | nil => simp at h
    | cons b t =>
      simp only [List.insertIdx_succ_cons, List.take_succ_cons, List.drop_succ_cons,
        List.cons_append, List.cons.injEq, true_and]
      exact ih t (by simpa using h)

/-- Well-formedness invariant of the deferred queue: entries strictly
ascending in (priority, insertion sequence), and every recorded sequence
number below the counter. -/
def DeferredActionQueue.WF {α : Type} (pri : α → Priority)
    (q : DeferredActionQueue α) : Prop :=
  q.queue.Pairwise (fun a b => keyLt (entryKey pri a) (entryKey pri b)) ∧
  ∀ e ∈ q.queue, e.insertion_order < q.insertion_counter

theorem wf_new {α : Type} (pri : α → Priority) :
    DeferredActionQueue.WF pri (DeferredActionQueue.new (α := α)) := by
  constructor
  · exact List.Pairwise.nil
  · intro e he; simp [DeferredActionQueue.new] at he

/-- `push` preserves the queue invariant, increments the counter, and the
new queue is (as a multiset) the old one with the action tagged by the old
counter value. -/
theorem push_wf_perm {α : Type} (pri : α → Priority) (q : DeferredActionQueue α)
    (hwf : DeferredActionQueue.WF pri q) (a : α) :
    DeferredActionQueue.WF pri (q.push pri a) ∧
    (q.push pri a).queue.Perm
      ((⟨a, q.insertion_counter⟩ : QueueEntry α) :: q.queue) ∧
    (q.push pri a).insertion_counter = q.insertion_counter + 1 := by
  obtain ⟨hsorted, hio⟩ := hwf
  set entry : QueueEntry α := ⟨a, q.insertion_counter⟩ with hentry
  have hne : ∀ x ∈ q.queue, QueueEntry.cmp pri x entry ≠ .eq := by
    intro x hx hcon
    have := (cmp_eq_eq_iff pri x entry).mp hcon
    have hx2 := hio x hx
    have : x.insertion_order = q.insertion_counter := congrArg Prod.snd this
    omega
  have hpre : ∀ i j (hi : i < q.queue.length) (hj : j < q.queue.length), i ≤ j →
      QueueEntry.cmp pri (q.queue.get ⟨j, hj⟩) entry = .lt →
      QueueEntry.cmp pri (q.queue.get ⟨i, hi⟩) entry = .lt := by
    intro i j hi hj hij hj2
    rcases Nat.lt_or_ge i j with hlt | hge
    · have hij2 := List.pairwise_iff_get.mp hsorted ⟨i, hi⟩ ⟨j, hj⟩ hlt
      exact (cmp_eq_lt_iff pri _ _).mpr
        (keyLt_trans hij2 ((cmp_eq_lt_iff pri _ _).mp hj2))
    · have : i = j := by omega
      subst this
      exact hj2
  have hsearch := binarySearchGo_insertion (fun e => QueueEntry.cmp pri e entry)
    q.queue hne hpre q.queue.length 0 q.queue.length (by omega) (by omega)
    (le_refl _) (fun i hi h2 => absurd h2 (by omega))
    (fun i hi h2 => absurd hi (by omega))
  rcases hsearch with ⟨k, hk, hkle, hklt, hkge⟩
  have hqueue : (q.push pri a).queue = q.queue.take k ++ entry :: q.queue.drop k := by
    simp only [DeferredActionQueue.push]
    rw [← hentry, hk]
    exact insertIdx_eq_take_cons_drop entry k q.queue hkle
  have htake : ∀ x ∈ q.queue.take k, keyLt (entryKey pri x) (entryKey pri entry) := by
    intro x hx
    rcases List.mem_iff_get.mp hx with ⟨⟨i, hi⟩, hget⟩
    have hilen : i < q.queue.length := by
      have := hi
      simp only [List.length_take] at this
      omega
    have hik : i < k := by
      have := hi
      simp only [List.length_take] at this
      omega
    have : q.queue.get ⟨i, hilen⟩ = x := by
      rw [← hget]
      simp [List.get_eq_getElem, List.getElem_take]
    rw [← this]
    exact (cmp_eq_lt_iff pri _ _).mp (hklt i hilen hik)
  have hdrop : ∀ x ∈ q.queue.drop k, keyLt (entryKey pri entry) (entryKey pri x) := by
    intro x hx
    rcases List.mem_iff_get.mp hx with ⟨⟨i, hi⟩, hget⟩
    have hilen : k + i < q.queue.length := by
      have := hi
      simp only [List.length_drop] at this
      omega
    have : q.queue.get ⟨k + i, hilen⟩ = x := by
      rw [← hget]
      simp [List.get_eq_getElem, List.getElem_drop]
    rw [← this]
    have hnotlt := hkge (k + i) hilen (by omega)
    have hnoteq := hne _ (q.queue.get_mem (k + i) hilen)
    rcases hcmp : QueueEntry.cmp pri (q.queue.get ⟨k + i, hilen⟩) entry with _ | _ | _
    · exact absurd hcmp hnotlt
    · exact absurd hcmp hnoteq
    · exact (cmp_eq_gt_iff pri _ _).mp hcmp
  refine ⟨⟨?_, ?_⟩, ?_, ?_⟩
  · -- sortedness of the pushed queue
    rw [hqueue]
    rw [List.pairwise_append]
    refine ⟨hsorted.sublist (List.take_sublist k q.queue), ?_, ?_⟩
    · rw [List.pairwise_cons]
      exact ⟨hdrop, hsorted.sublist (List.drop_sublist k q.queue)⟩
    · intro x hx y hy
      rcases List.mem_cons.mp hy with hy | hy
      · rw [hy]; exact htake x hx
      · exact keyLt_trans (htake x hx) (hdrop y hy)
  · -- counter bound
    intro e he
    rw [hqueue] at he
    have hcounter : (q.push pri a).insertion_counter = q.insertion_counter + 1 := rfl
    rw [hcounter]
    rcases List.mem_append.mp he with he | he
    · have := hio e (List.mem_of_mem_take he)
      omega
    · rcases List.mem_cons.mp he with he | he
      · rw [he, hentry]
        simp
      · have := hio e (List.mem_of_mem_drop he)
        omega
  · -- permutation with the cons'd entry
    rw [hqueue]
    have p1 : List.Perm (q.queue.take k ++ entry :: q.queue.drop k)
        (entry :: (q.queue.take k ++ q.queue.drop k)) := List.perm_middle
    rw [List.take_append_drop] at p1
    exact p1
  · rfl

/-- Pushing a list of actions onto the queue in order. -/
def DeferredActionQueue.pushAll {α : Type} (pri : α → Priority)
    (q : DeferredActionQueue α) (l : List α) : DeferredActionQueue α :=
  l.foldl (DeferredActionQueue.push pri) q

/-- The queue entries produced by pushing a list of actions whose first
element receives sequence number `c`. -/
def tagFrom {α : Type} (c : Nat) : List α → List (QueueEntry α)
  | [] => []
  | a :: l => ⟨a, c⟩ :: tagFrom (c + 1) l

theorem tagFrom_length {α : Type} : ∀ (l : List α) (c : Nat),
    (tagFrom c l).length = l.length := by
  intro l
  induction l with
  | nil => intro c; rfl
  | cons a t ih => intro c; simp [tagFrom, ih]

theorem mem_tagFrom {α : Type} : ∀ (l : List α) (c : Nat) (e : QueueEntry α),
    e ∈ tagFrom c l → e.action ∈ l := by
  intro l
  induction l with
  | nil => intro c e he; simp [tagFrom] at he
  | cons a t ih =>
    intro c e he
    rcases List.mem_cons.mp he with he | he
    · rw [he]; simp
    · exact List.mem_cons.mpr (Or.inr (ih (c + 1) e he))

/-- `pushAll` preserves the invariant, advances the counter by the number
of pushed actions, and produces (as a multiset) the tagged actions on top
of the previous entries. -/
theorem pushAll_spec {α : Type} (pri : α → Priority) :
    ∀ (l : List α) (q : DeferredActionQueue α), DeferredActionQueue.WF pri q →
    DeferredActionQueue.WF pri (q.pushAll pri l) ∧
    (q.pushAll pri l).insertion_counter = q.insertion_counter + l.length ∧
    (q.pushAll pri l).queue.Perm (tagFrom q.insertion_counter l ++ q.queue) := by
  intro l
  induction l with
  | nil =>
    intro q hq
    exact ⟨hq, rfl, by simp [DeferredActionQueue.pushAll, tagFrom]⟩
  | cons a t ih =>
    intro q hq
    obtain ⟨hwf1, hperm1, hc1⟩ := push_wf_perm pri q hq a
    have hfold : q.pushAll pri (a :: t) = (q.push pri a).pushAll pri t := rfl
    obtain ⟨hwf2, hc2, hperm2⟩ := ih (q.push pri a) hwf1
    refine ⟨by rw [hfold]; exact hwf2, by rw [hfold, hc2, hc1]; simp only [List.length_cons]; omega, ?_⟩
    rw [hfold]
    rw [hc1] at hperm2
    have h3 : ((q.push pri a).pushAll pri t).queue.Perm
        (tagFrom (q.insertion_counter + 1) t ++
          ((⟨a, q.insertion_counter⟩ : QueueEntry α) :: q.queue)) :=
      hperm2.trans (List.Perm.append_left _ hperm1)
    refine h3.trans ?_
    have heq : tagFrom q.insertion_counter (a :: t) ++ q.queue =
        (⟨a, q.insertion_counter⟩ : QueueEntry α) ::
          (tagFrom (q.insertion_counter + 1) t ++ q.queue) := by
      simp [tagFrom]
    rw [heq]
    exact List.perm_middle

/-- Draining a queue of scripted effects that all complete executes each
entry once, in queue order, and empties the queue. -/
theorem executeAllGo_all_completed :
    ∀ (l : List (QueueEntry ScriptedEffect)),
    (∀ e ∈ l, e.action.res = Except.ok DeferredActionResult.Completed) →
    ∀ (s : List ScriptedEffect) (n : Nat),
      DeferredActionQueue.executeAllGo scriptedExec l s n =
        ([], s ++ l.map (fun e => e.action), n + l.length) := by
  intro l
  induction l with
  | nil => intro h s n; simp [DeferredActionQueue.executeAllGo]
  | cons e t ih =>
    intro h s n
    have he := h e (by simp)
    simp only [DeferredActionQueue.executeAllGo, scriptedExec, he]
    rw [ih (fun x hx => h x (by simp [hx])) (s ++ [e.action]) (n + 1)]
    simp [Prod.ext_iff]
    omega

/-! ### Claims C1 and C2: the deferred-effect queue -/

/-- **C1**: For every sequence of deferred effects pushed onto the
`DeferredActionQueue`, draining executes them in ascending order of
priority rank (lower numeric rank first), ties among equal ranks broken
by earlier insertion sequence number: the queue after the pushes holds
exactly the pushed effects tagged with insertion numbers `0, 1, 2, …`,
its entries stand in strictly ascending `(priority value, sequence)`
order, and draining executes them in exactly that order.  In particular,
pushing effects with priorities `[BackOfTheLine, Default, Cost]` in that
order and draining executes `Cost`, then `Default`, then
`BackOfTheLine`. -/
theorem C1_drain_order
    (effects : List ScriptedEffect)
    (hall : ∀ e ∈ effects, e.res = Except.ok DeferredActionResult.Completed) :
    (DeferredActionQueue.new.pushAll ScriptedEffect.priority effects).queue.Perm
        (tagFrom 0 effects) ∧
    (DeferredActionQueue.new.pushAll ScriptedEffect.priority effects).queue.Pairwise
        (fun a b => keyLt (entryKey ScriptedEffect.priority a)
          (entryKey ScriptedEffect.priority b)) ∧
    DeferredActionQueue.executeAll scriptedExec
        (DeferredActionQueue.new.pushAll ScriptedEffect.priority effects) [] =
      (⟨[], effects.length⟩,
       (DeferredActionQueue.new.pushAll ScriptedEffect.priority effects).queue.map
         (fun e => e.action),
       effects.length) ∧
    (DeferredActionQueue.executeAll scriptedExec
        (DeferredActionQueue.new.pushAll ScriptedEffect.priority
          [⟨0, .BackOfTheLine, .ok .Completed⟩, ⟨1, .Default, .ok .Completed⟩,
           ⟨2, .Cost, .ok .Completed⟩]) []).2.1 =
      [⟨2, .Cost, .ok .Completed⟩, ⟨1, .Default, .ok .Completed⟩,
       ⟨0, .BackOfTheLine, .ok .Completed⟩] := by
  obtain ⟨hwf, hc, hperm⟩ := pushAll_spec ScriptedEffect.priority effects
    DeferredActionQueue.new (wf_new _)
  simp only [show (DeferredActionQueue.new (α := ScriptedEffect)).insertion_counter = 0
      from rfl,
    show (DeferredActionQueue.new (α := ScriptedEffect)).queue = [] from rfl,
    List.append_nil, Nat.zero_add] at hc hperm
  refine ⟨hperm, hwf.1, ?_, by decide⟩
  have hmem : ∀ e ∈ (DeferredActionQueue.new.pushAll ScriptedEffect.priority
      effects).queue, e.action.res = Except.ok DeferredActionResult.Completed := by
    intro e he
    exact hall e.action (mem_tagFrom effects 0 e (hperm.mem_iff.mp he))
  have hlen : (DeferredActionQueue.new.pushAll ScriptedEffect.priority
      effects).queue.length = effects.length := by
    rw [hperm.length_eq, tagFrom_length]
  unfold DeferredActionQueue.executeAll
  rw [executeAllGo_all_completed _ hmem [] 0]
  simp [hc, hlen]

/-- Witness for C1 at a concrete input: the three-effect instance of the
claim, obtained from the theorem itself. -/
theorem C1_drain_order_witness :
    (DeferredActionQueue.executeAll scriptedExec
        (DeferredActionQueue.new.pushAll ScriptedEffect.priority
          [⟨0, .BackOfTheLine, .ok .Completed⟩, ⟨1, .Default, .ok .Completed⟩,
           ⟨2, .Cost, .ok .Completed⟩]) []).2.1 =
      [⟨2, .Cost, .ok .Completed⟩, ⟨1, .Default, .ok .Completed⟩,
       ⟨0, .BackOfTheLine, .ok .Completed⟩] :=
  (C1_drain_order
    [⟨0, .BackOfTheLine, .ok .Completed⟩, ⟨1, .Default, .ok .Completed⟩,
     ⟨2, .Cost, .ok .Completed⟩] (by decide)).2.2.2

/-- **C2**: If the front effect of a non-empty queue returns `NeedsInput`,
then after the drain attempt the same entry is again at the head, the
queue length is unchanged, draining stops (only the head was attempted —
the log gains exactly that one attempt — so no effect behind it
executes), and the stall is surfaced to the caller as the `NeedsInput`
result; an effect whose execution returns an error is instead discarded
and draining continues with the next entry. -/
theorem C2_needs_input_stalls
    (q : DeferredActionQueue ScriptedEffect) (e : QueueEntry ScriptedEffect)
    (rest : List (QueueEntry ScriptedEffect)) (s : List ScriptedEffect)
    (hq : q.queue = e :: rest) :
    (e.action.res = Except.ok DeferredActionResult.NeedsInput →
      DeferredActionQueue.executeNext scriptedExec q s =
        (⟨e :: rest, q.insertion_counter⟩, s ++ [e.action],
         some (Except.ok DeferredActionResult.NeedsInput)) ∧
      (DeferredActionQueue.executeNext scriptedExec q s).1.queue.length =
        q.queue.length ∧
      DeferredActionQueue.executeAll scriptedExec q s =
        (⟨e :: rest, q.insertion_counter⟩, s ++ [e.action], 0)) ∧
    (∀ msg, e.action.res = Except.error msg →
      DeferredActionQueue.executeNext scriptedExec q s =
        (⟨rest, q.insertion_counter⟩, s ++ [e.action], some (Except.error msg)) ∧
      DeferredActionQueue.executeAll scriptedExec q s =
        (⟨(DeferredActionQueue.executeAllGo scriptedExec rest (s ++ [e.action]) 1).1,
          q.insertion_counter⟩,
         (DeferredActionQueue.executeAllGo scriptedExec rest (s ++ [e.action]) 1).2.1,
         (DeferredActionQueue.executeAllGo scriptedExec rest (s ++ [e.action]) 1).2.2)) := by
  constructor
  · intro hres
    refine ⟨?_, ?_, ?_⟩
    · simp [DeferredActionQueue.executeNext, hq, scriptedExec, hres]
    · simp [DeferredActionQueue.executeNext, hq, scriptedExec, hres]
    · unfold DeferredActionQueue.executeAll
      rw [hq]
      simp [DeferredActionQueue.executeAllGo, scriptedExec, hres]
  · intro msg hres
    constructor
    · simp [DeferredActionQueue.executeNext, hq, scriptedExec, hres]
    · unfold DeferredActionQueue.executeAll
      rw [hq]
      simp [DeferredActionQueue.executeAllGo, scriptedExec, hres]

/-- Witness for C2 at a concrete input: a queue whose front effect needs
input keeps both entries, logs exactly one attempt, and executes zero
actions. -/
theorem C2_needs_input_stalls_witness :
    DeferredActionQueue.executeAll scriptedExec
      (⟨[⟨⟨0, .Default, .ok .NeedsInput⟩, 0⟩, ⟨⟨1, .Default, .ok .Completed⟩, 1⟩], 2⟩ :
        DeferredActionQueue ScriptedEffect) [] =
      (⟨[⟨⟨0, .Default, .ok .NeedsInput⟩, 0⟩, ⟨⟨1, .Default, .ok .Completed⟩, 1⟩], 2⟩,
       [⟨0, .Default, .ok .NeedsInput⟩], 0) :=
  ((C2_needs_input_stalls _ _ _ [] rfl).1 rfl).2.2

/-! ### Global parameter tracks (`game/global_params.rs`) -/

/-- The four official global parameters. -/
inductive GlobalParameter where
  | Oceans
  | Oxygen
  | Temperature
  | Venus
deriving DecidableEq, Repr

/-- Maximum user-facing values. -/
def MAX_OCEANS : Nat := 9
def MAX_OXYGEN : Nat := 14
def MAX_TEMPERATURE : Int := 8
def MIN_TEMPERATURE : Int := -30
def MAX_VENUS : Nat := 30

/-- Step sizes. -/
def TEMPERATURE_STEP : Int := 2
def OXYGEN_STEP : Nat := 1
def OCEANS_STEP : Nat := 1
def VENUS_STEP : Nat := 2

/-- Maximum scale levels (internal representation `0` to `max_level - 1`). -/
def TEMPERATURE_MAX_LEVEL : Nat := 20
def OXYGEN_MAX_LEVEL : Nat := 15
def OCEANS_MAX_LEVEL : Nat := 10
def VENUS_MAX_LEVEL : Nat := 16

/-- The parameter tracks, stored as internal `u8` scale values. -/
structure GlobalParameters where
  oceans : Nat
  oxygen : Nat
  temperature : Nat
  venus : Nat
deriving DecidableEq, Repr

namespace GlobalParameters

/-- `GlobalParameters::new` (`Default::default()`: all scales zero). -/
def new : GlobalParameters := ⟨0, 0, 0, 0⟩

/-- Internal scale (0-9) to user-facing oceans value. -/
def oceans_scale_to_value (scale : Nat) : Int := (scale : Int)

/-- User-facing oceans value to internal scale: `value.max(0).min(9) as u8`. -/
def oceans_value_to_scale (value : Int) : Nat :=
  (min (max value 0) (MAX_OCEANS : Int)).toNat

/-- Internal scale (0-14) to user-facing oxygen value. -/
def oxygen_scale_to_value (scale : Nat) : Int := (scale : Int)

/-- User-facing oxygen value to internal scale. -/
def oxygen_value_to_scale (value : Int) : Nat :=
  (min (max value 0) (MAX_OXYGEN : Int)).toNat

/-- Internal scale (0-19) to user-facing temperature (-30 to +8, steps of 2). -/
def temperature_scale_to_value (scale : Nat) : Int :=
  MIN_TEMPERATURE + (scale : Int) * TEMPERATURE_STEP

/-- User-facing temperature to internal scale, rounding to the nearest
step.  The Rust numerator `(clamped - MIN_TEMPERATURE) + TEMPERATURE_STEP / 2`
is non-negative after clamping, so the truncating `i32` division agrees
with `Nat` division after `toNat`. -/
def temperature_value_to_scale (value : Int) : Nat :=
  let clamped := min (max value MIN_TEMPERATURE) MAX_TEMPERATURE
  let steps_from_min :=
    ((clamped - MIN_TEMPERATURE).toNat + (TEMPERATURE_STEP / 2).toNat) /
      TEMPERATURE_STEP.toNat
  min steps_from_min (TEMPERATURE_MAX_LEVEL - 1)

/-- Internal scale (0-15) to user-facing venus value (0-30, steps of 2). -/
def venus_scale_to_value (scale : Nat) : Int := ((scale * VENUS_STEP : Nat) : Int)

/-- User-facing venus value to internal scale, rounding to the nearest
step (the Rust computation is over `u32` after clamping into `0..=30`). -/
def venus_value_to_scale (value : Int) : Nat :=
  let clamped := (min (max value 0) (MAX_VENUS : Int)).toNat
  let scale := (clamped + VENUS_STEP / 2) / VENUS_STEP
  min scale (VENUS_MAX_LEVEL - 1)

/-- `GlobalParameters::get`: the user-facing value of a parameter. -/
def get (g : GlobalParameters) (param : GlobalParameter) : Int :=
  match param with
  | .Oceans => oceans_scale_to_value g.oceans
  | .Oxygen => oxygen_scale_to_value g.oxygen
  | .Temperature => temperature_scale_to_value g.temperature
  | .Venus => venus_scale_to_value g.venus

/-- `GlobalParameters::set`: set a parameter to a value, rounded to the
nearest step and clamped into range. -/
def set (g : GlobalParameters) (param : GlobalParameter) (value : Int) :
    GlobalParameters :=
  match param with
  | .Oceans => { g with oceans := oceans_value_to_scale value }
  | .Oxygen => { g with oxygen := oxygen_value_to_scale value }
  | .Temperature => { g with temperature := temperature_value_to_scale value }
  | .Venus => { g with venus := venus_value_to_scale value }

/-- `GlobalParameters::increase`: raise a parameter by at most the
requested number of steps, saturating at the ceiling (`saturating_sub`
is the `Nat` truncated subtraction); returns the number of steps
actually applied. -/
def increase (g : GlobalParameters) (param : GlobalParameter) (steps : Nat) :
    GlobalParameters × Nat :=
  if steps = 0 then (g, 0)
  else
    match param with
    | .Oceans =>
      let max_scale := OCEANS_MAX_LEVEL - 1
      let available := max_scale - g.oceans
      let actual_steps := min steps available
      ({ g with oceans := g.oceans + actual_steps }, actual_steps)
    | .Oxygen =>
      let max_scale := OXYGEN_MAX_LEVEL - 1
      let available := max_scale - g.oxygen
      let actual_steps := min steps available
      ({ g with oxygen := g.oxygen + actual_steps }, actual_steps)
    | .Temperature =>
      let max_scale := TEMPERATURE_MAX_LEVEL - 1
      let available := max_scale - g.temperature
      let actual_steps := min steps available
      ({ g with temperature := g.temperature + actual_steps }, actual_steps)
    | .Venus =>
      let max_scale := VENUS_MAX_LEVEL - 1
      let available := max_scale - g.venus
      let actual_steps := min steps available
      ({ g with venus := g.venus + actual_steps }, actual_steps)

/-- `GlobalParameters::can_increase`. -/
def can_increase (g : GlobalParameters) (param : GlobalParameter) : Bool :=
  match param with
  | .Oceans => decide (g.oceans < OCEANS_MAX_LEVEL - 1)
  | .Oxygen => decide (g.oxygen < OXYGEN_MAX_LEVEL - 1)
  | .Temperature => decide (g.temperature < TEMPERATURE_MAX_LEVEL - 1)
  | .Venus => decide (g.venus < VENUS_MAX_LEVEL - 1)

/-- `GlobalParameters::is_fully_terraformed`: every scale at the ceiling. -/
def is_fully_terraformed (g : GlobalParameters) : Bool :=
  decide (OCEANS_MAX_LEVEL - 1 ≤ g.oceans) &&
  decide (OXYGEN_MAX_LEVEL - 1 ≤ g.oxygen) &&
  decide (TEMPERATURE_MAX_LEVEL - 1 ≤ g.temperature) &&
  decide (VENUS_MAX_LEVEL - 1 ≤ g.venus)

end GlobalParameters

/-- The internal scale value of a parameter (the corresponding struct
field). -/
def levelOf (g : GlobalParameters) : GlobalParameter → Nat
  | .Oceans => g.oceans
  | .Oxygen => g.oxygen
  | .Temperature => g.temperature
  | .Venus => g.venus

/-- The internal maximum scale level of a parameter. -/
def maxLevel : GlobalParameter → Nat
  | .Oceans => OCEANS_MAX_LEVEL
  | .Oxygen => OXYGEN_MAX_LEVEL
  | .Temperature => TEMPERATURE_MAX_LEVEL
  | .Venus => VENUS_MAX_LEVEL

/-- The documented user-facing maximum of a parameter. -/
def maxValue : GlobalParameter → Int
  | .Oceans => (MAX_OCEANS : Int)
  | .Oxygen => (MAX_OXYGEN : Int)
  | .Temperature => MAX_TEMPERATURE
  | .Venus => (MAX_VENUS : Int)

/-- A single `increase` never lowers any user-facing value. -/
theorem increase_get_mono (g : GlobalParameters) (p : GlobalParameter)
    (steps : Nat) (q : GlobalParameter) :
    g.get q ≤ (g.increase p steps).1.get q := by
  by_cases hs : steps = 0
  · simp [GlobalParameters.increase, hs]
  · cases p <;> cases q <;>
      simp [GlobalParameters.increase, hs, GlobalParameters.get,
        GlobalParameters.oceans_scale_to_value, GlobalParameters.oxygen_scale_to_value,
        GlobalParameters.temperature_scale_to_value, GlobalParameters.venus_scale_to_value,
        TEMPERATURE_STEP, VENUS_STEP, MIN_TEMPERATURE] <;>
      omega

/-- All internal scales within their documented ranges. -/
def InRange (g : GlobalParameters) : Prop :=
  g.oceans ≤ OCEANS_MAX_LEVEL - 1 ∧ g.oxygen ≤ OXYGEN_MAX_LEVEL - 1 ∧
  g.temperature ≤ TEMPERATURE_MAX_LEVEL - 1 ∧ g.venus ≤ VENUS_MAX_LEVEL - 1

theorem inRange_new : InRange GlobalParameters.new := by
  simp [InRange, GlobalParameters.new, OCEANS_MAX_LEVEL, OXYGEN_MAX_LEVEL,
    TEMPERATURE_MAX_LEVEL, VENUS_MAX_LEVEL]

theorem inRange_increase (g : GlobalParameters) (p : GlobalParameter) (steps : Nat)
    (h : InRange g) : InRange (g.increase p steps).1 := by
  obtain ⟨h1, h2, h3, h4⟩ := h
  by_cases hs : steps = 0
  · simp [GlobalParameters.increase, hs]
    exact ⟨h1, h2, h3, h4⟩
  · cases p <;>
      simp [GlobalParameters.increase, hs, InRange, OCEANS_MAX_LEVEL, OXYGEN_MAX_LEVEL,
        TEMPERATURE_MAX_LEVEL, VENUS_MAX_LEVEL] at h1 h2 h3 h4 ⊢ <;>
      omega

theorem inRange_set (g : GlobalParameters) (p : GlobalParameter) (v : Int)
    (h : InRange g) : InRange (g.set p v) := by
  obtain ⟨h1, h2, h3, h4⟩ := h
  cases p <;>
    simp [GlobalParameters.set, InRange, GlobalParameters.oceans_value_to_scale,
      GlobalParameters.oxygen_value_to_scale, GlobalParameters.temperature_value_to_scale,
      GlobalParameters.venus_value_to_scale, OCEANS_MAX_LEVEL, OXYGEN_MAX_LEVEL,
      TEMPERATURE_MAX_LEVEL, VENUS_MAX_LEVEL, MAX_OCEANS, MAX_OXYGEN, MAX_VENUS,
      MAX_TEMPERATURE, MIN_TEMPERATURE, TEMPERATURE_STEP, VENUS_STEP] at h1 h2 h3 h4 ⊢ <;>
    omega

theorem get_le_maxValue (g : GlobalParameters) (p : GlobalParameter)
    (h : InRange g) : g.get p ≤ maxValue p := by
  obtain ⟨h1, h2, h3, h4⟩ := h
  cases p <;>
    simp [GlobalParameters.get, maxValue, GlobalParameters.oceans_scale_to_value,
      GlobalParameters.oxygen_scale_to_value, GlobalParameters.temperature_scale_to_value,
      GlobalParameters.venus_scale_to_value, MAX_OCEANS, MAX_OXYGEN, MAX_TEMPERATURE,
      MAX_VENUS, MIN_TEMPERATURE, TEMPERATURE_STEP, VENUS_STEP, OCEANS_MAX_LEVEL,
      OXYGEN_MAX_LEVEL, TEMPERATURE_MAX_LEVEL, VENUS_MAX_LEVEL] at h1 h2 h3 h4 ⊢ <;>
    omega

/-- An operation on the parameter tracks: a call to `increase` or to
`set`. -/
inductive GPOp where
  | inc (p : GlobalParameter) (steps : Nat)
  | set (p : GlobalParameter) (value : Int)
deriving DecidableEq, Repr

/-- Whether the operation is an `increase` call. -/
def GPOp.isInc : GPOp → Bool
  | .inc _ _ => true
  | .set _ _ => false

/-- Apply one operation to the tracks. -/
def applyOp (g : GlobalParameters) : GPOp → GlobalParameters
  | .inc p steps => (g.increase p steps).1
  | .set p v => g.set p v

/-- Run a sequence of operations. -/
def runOps (g : GlobalParameters) (ops : List GPOp) : GlobalParameters :=
  ops.foldl applyOp g

theorem inRange_runOps : ∀ (ops : List GPOp) (g : GlobalParameters),
    InRange g → InRange (runOps g ops) := by
  intro ops
  induction ops with
  | nil => intro g h; exact h
  | cons op t ih =>
    intro g h
    have hstep : InRange (applyOp g op) := by
      cases op with
      | inc p steps => exact inRange_increase g p steps h
      | set p v => exact inRange_set g p v h
    exact ih (applyOp g op) hstep

theorem runOps_inc_mono (p : GlobalParameter) :
    ∀ (ops : List GPOp) (g : GlobalParameters), (∀ op ∈ ops, op.isInc = true) →
    g.get p ≤ (runOps g ops).get p := by
  intro ops
  induction ops with
  | nil => intro g h; exact le_refl _
  | cons op t ih =>
    intro g h
    have hstep : g.get p ≤ (applyOp g op).get p := by
      cases op with
      | inc q steps => exact increase_get_mono g q steps p
      | set q v => exact absurd (h (GPOp.set q v) (by simp)) (by simp [GPOp.isInc])
    exact hstep.trans (ih (applyOp g op) (fun x hx => h x (by simp [hx])))

/-! ### Claims C7 and C8: global parameters -/

/-- **C7**: `increase(parameter, n)` is saturating: it applies exactly
`min(n, steps remaining to the parameter's ceiling)` internal steps and
returns that count (possibly less than requested, including 0 at the
ceiling), and it never decreases any user-facing value; in particular
`increase(Oceans, 100)` from the starting value returns exactly 9, and a
subsequent `increase(Oceans, 1)` returns 0. -/
theorem C7_increase_saturating (g : GlobalParameters) (p : GlobalParameter)
    (steps : Nat) :
    (g.increase p steps).2 = min steps (maxLevel p - 1 - levelOf g p) ∧
    levelOf (g.increase p steps).1 p = levelOf g p + (g.increase p steps).2 ∧
    (∀ q : GlobalParameter, g.get q ≤ (g.increase p steps).1.get q) ∧
    (GlobalParameters.new.increase .Oceans 100).2 = 9 ∧
    ((GlobalParameters.new.increase .Oceans 100).1.increase .Oceans 1).2 = 0 := by
  refine ⟨?_, ?_, increase_get_mono g p steps, by decide, by decide⟩
  · by_cases hs : steps = 0
    · subst hs; simp [GlobalParameters.increase]
    · cases p <;> simp [GlobalParameters.increase, hs, maxLevel, levelOf]
  · by_cases hs : steps = 0
    · subst hs; simp [GlobalParameters.increase]
    · cases p <;> simp [GlobalParameters.increase, hs, levelOf]

/-- **C8 counterexample**: the claim quantifies over sequences of
`increase` *and `set`* operations, but `set` is a rounding
clamp-into-range setter that may lower a value: after
`increase(Oceans, 5)` the oceans value is 5, and a following
`set(Oceans, 0)` lowers it to 0 — the user-facing value is not
monotonically non-decreasing across the sequence. -/
theorem C8_counterexample :
    GlobalParameters.get (runOps GlobalParameters.new
        [GPOp.inc .Oceans 5, GPOp.set .Oceans 0]) .Oceans <
      GlobalParameters.get (runOps GlobalParameters.new
        [GPOp.inc .Oceans 5]) .Oceans := by
  decide

/-- **C8 (amended)**: across every sequence of `increase` and `set`
operations the user-facing value never exceeds its documented maximum
(9 oceans, 14 oxygen, +8 temperature, 30 venus), and across every
sequence consisting of `increase` operations alone it is monotonically
non-decreasing (`set` may lower it). -/
theorem C8_monotone_bounded (ops : List GPOp) (p : GlobalParameter) :
    GlobalParameters.get (runOps GlobalParameters.new ops) p ≤ maxValue p ∧
    (∀ pre suf, ops = pre ++ suf → (∀ op ∈ ops, op.isInc = true) →
      GlobalParameters.get (runOps GlobalParameters.new pre) p ≤
        GlobalParameters.get (runOps GlobalParameters.new ops) p) := by
  constructor
  · exact get_le_maxValue _ p (inRange_runOps ops _ inRange_new)
  · intro pre suf hsplit hinc
    subst hsplit
    have heq : runOps GlobalParameters.new (pre ++ suf) =
        runOps (runOps GlobalParameters.new pre) suf := by
      simp [runOps, List.foldl_append]
    rw [heq]
    exact runOps_inc_mono p suf (runOps GlobalParameters.new pre)
      (fun op hop => hinc op (List.mem_append.mpr (Or.inr hop)))

/-- Witness for the amended C8 at a concrete input. -/
theorem C8_monotone_bounded_witness :
    GlobalParameters.get (runOps GlobalParameters.new
        [GPOp.inc .Oceans 3, GPOp.inc .Oxygen 2]) .Oceans ≤ maxValue .Oceans ∧
    GlobalParameters.get (runOps GlobalParameters.new [GPOp.inc .Oceans 3]) .Oceans ≤
      GlobalParameters.get (runOps GlobalParameters.new
        [GPOp.inc .Oceans 3, GPOp.inc .Oxygen 2]) .Oceans :=
  ⟨(C8_monotone_bounded [GPOp.inc .Oceans 3, GPOp.inc .Oxygen 2] .Oceans).1,
   (C8_monotone_bounded [GPOp.inc .Oceans 3, GPOp.inc .Oxygen 2] .Oceans).2
     [GPOp.inc .Oceans 3] [GPOp.inc .Oxygen 2] rfl (by decide)⟩

/-! ### Players, actions and the game object -/

/-- Resource kinds (`player/resources.rs`). -/
inductive Resource where
  | Megacredits
  | Steel
  | Titanium
  | Plants
  | Energy
  | Heat
deriving DecidableEq, Repr

/-- Player resource pools (`player/resources.rs`), `u32` quantities. -/
structure Resources where
  megacredits : Nat
  steel : Nat
  titanium : Nat
  plants : Nat
  energy : Nat
  heat : Nat
deriving DecidableEq, Repr

namespace Resources

/-- `Resources::new`. -/
def new : Resources := ⟨0, 0, 0, 0, 0, 0⟩

/-- `Resources::get`. -/
def get (r : Resources) : Resource → Nat
  | .Megacredits => r.megacredits
  | .Steel => r.steel
  | .Titanium => r.titanium
  | .Plants => r.plants
  | .Energy => r.energy
  | .Heat => r.heat

/-- `Resources::add`. -/
def add (r : Resources) (resource : Resource) (amount : Nat) : Resources :=
  match resource with
  | .Megacredits => { r with megacredits := r.megacredits + amount }
  | .Steel => { r with steel := r.steel + amount }
  | .Titanium => { r with titanium := r.titanium + amount }
  | .Plants => { r with plants := r.plants + amount }
  | .Energy => { r with energy := r.energy + amount }
  | .Heat => { r with heat := r.heat + amount }

/-- `Resources::subtract` (`saturating_sub`, which is `Nat` subtraction). -/
def subtract (r : Resources) (resource : Resource) (amount : Nat) : Resources :=
  match resource with
  | .Megacredits => { r with megacredits := r.megacredits - amount }
  | .Steel => { r with steel := r.steel - amount }
  | .Titanium => { r with titanium := r.titanium - amount }
  | .Plants => { r with plants := r.plants - amount }
  | .Energy => { r with energy := r.energy - amount }
  | .Heat => { r with heat := r.heat - amount }

end Resources

/-- Player record (`player/player.rs`).  The fields never read or written
by the operations verified here (the production ledger, tags, played
cards, victory-point counter and the research-phase card slots) are
omitted; every modelled operation leaves them untouched in the source. -/
structure Player where
  id : String
  name : String
  resources : Resources
  terraform_rating : Int
  cards_in_hand : List String
  draft_hand : List String
  drafted_cards : List String
  needs_to_draft : Bool
deriving DecidableEq, Repr

/-- `Player::new` (starting terraform rating 20). -/
def Player.new (id name : String) : Player :=
  ⟨id, name, Resources.new, 20, [], [], [], false⟩

/-- Game phases (`game/phase.rs`). -/
inductive Phase where
  | InitialDrafting
  | Preludes
  | Research
  | Drafting
  | Action
  | Production
  | Solar
  | Intergeneration
  | End
deriving DecidableEq, Repr

/-- Board types (`board/board.rs`); the board content itself is an
out-of-scope collaborator. -/
inductive BoardType where
  | Tharsis
  | Hellas
  | Elysium
deriving DecidableEq, Repr

/-- Payment methods (`actions/payment.rs`). -/
inductive PaymentMethod where
  | MegaCredits (amount : Nat)
  | Steel (amount : Nat)
  | Titanium (amount : Nat)
  | Heat (amount : Nat)
  | Plants (amount : Nat)
deriving DecidableEq, Repr

/-- Reserve units of a payment (`actions/payment.rs`). -/
structure PaymentReserve where
  megacredits : Nat
  steel : Nat
  titanium : Nat
  heat : Nat
  plants : Nat
deriving DecidableEq, Repr

/-- A payment (`actions/payment.rs`). -/
structure Payment where
  methods : List PaymentMethod
  reserve : PaymentReserve
deriving DecidableEq, Repr

/-- Standard project types (`actions/action.rs`). -/
inductive StandardProjectType where
  | SellPatents
  | PowerPlant
  | Asteroid
  | Aquifer
  | Greenery
  | City
deriving DecidableEq, Repr

/-- Parameters of a standard project (`actions/action.rs`). -/
structure StandardProjectParams where
  card_ids : List String
deriving DecidableEq, Repr

/-- Player actions (`actions/action.rs`). -/
inductive Action where
  | PlayCard (card_id : String) (payment : Payment)
  | StandardProject (project_type : StandardProjectType) (payment : Payment)
      (params : StandardProjectParams)
  | Pass
  | ConvertPlants
  | ConvertHeat
  | FundAward (award_id : String) (payment : Payment)
  | ClaimMilestone (milestone_id : String) (payment : Payment)
deriving DecidableEq, Repr

/-- `Action::is_pass`. -/
def Action.is_pass : Action → Bool
  | .Pass => true
  | _ => false

/-- Deferred actions held by the game's queue: `SimpleDeferredAction`
(`deferred/deferred_action.rs`) instantiated with a constant closure of
the chosen result, and `GainResourcesDeferred` (`deferred/common.rs`),
which credits a player and completes.  Replacing the trait object by a
closed variant type follows the spec's own design note (§9). -/
inductive DeferredEff where
  | simple (player_id : String) (pri : Priority) (res : Except String DeferredActionResult)
  | gainResources (player_id : String) (resource : Resource) (amount : Nat)
deriving DecidableEq, Repr

/-- The `priority()` trait method of the deferred actions
(`GainResourcesDeferred::priority` is fixed). -/
def DeferredEff.priority : DeferredEff → Priority
  | .simple _ pri _ => pri
  | .gainResources _ _ _ => Priority.GainResourceOrProduction

/-- The game state (`game/game.rs`).  The board, the RNG object and the
milestone/award lists belong to out-of-scope collaborators (spec §1, §6)
and are not read by any operation verified here; the RNG seed is kept.
The Rust field `prelude` is renamed `prelude_flag` (`prelude` is a Lean
keyword). -/
structure Game where
  id : String
  players : List Player
  phase : Phase
  generation : Nat
  active_player_id : Option String
  passed_players : List String
  actions_taken_this_turn : Nat
  global_parameters : GlobalParameters
  rng_seed : Nat
  corporate_era : Bool
  venus_next : Bool
  colonies : Bool
  prelude_flag : Bool
  prelude2 : Bool
  turmoil : Bool
  promos : Bool
  draft_variant : Bool
  solo_mode : Bool
  neutral_player : Option Player
  draft_round : Nat
  initial_draft_iteration : Nat
  deferred_actions : DeferredActionQueue DeferredEff
deriving DecidableEq, Repr

/-- `Game::new`: solo mode exactly when one player name is given; in solo
mode the lone player starts at terraform rating 14 and a neutral player
is created; the first player becomes active; phase starts at
`InitialDrafting`, generation at 1. -/
def Game.new (id : String) (player_names : List String) (rng_seed : Nat)
    (board_type : BoardType)
    (corporate_era venus_next colonies prelude_flag prelude2 turmoil promos
      draft_variant : Bool) : Game :=
  let solo_mode := player_names.length == 1
  let players := player_names.map (fun name =>
    let player := Player.new name name
    if solo_mode then { player with terraform_rating := 14 } else player)
  let neutral_player :=
    if solo_mode then some (Player.new "neutral" "Neutral") else none
  let active_player_id := players.head?.map (fun p => p.id)
  { id := id
    players := players
    phase := Phase.InitialDrafting
    generation := 1
    active_player_id := active_player_id
    passed_players := []
    actions_taken_this_turn := 0
    global_parameters := GlobalParameters.new
    rng_seed := rng_seed
    corporate_era := corporate_era
    venus_next := venus_next
    colonies := colonies
    prelude_flag := prelude_flag
    prelude2 := prelude2
    turmoil := turmoil
    promos := promos
    draft_variant := draft_variant
    solo_mode := solo_mode
    neutral_player := neutral_player
    draft_round := 1
    initial_draft_iteration := 1
    deferred_actions := DeferredActionQueue.new }

/-- `Game::get_player` (the first player with the given id). -/
def Game.get_player (g : Game) (player_id : String) : Option Player :=
  g.players.find? (fun p => p.id == player_id)

/-- Mutation through `Game::get_player_mut`: update the first player with
the given id (`iter_mut().find()`), leaving everyone else unchanged. -/
def updateFirstPlayer (player_id : String) (f : Player → Player) :
    List Player → List Player
  | [] => []
  | p :: ps =>
    if p.id == player_id then f p :: ps
    else p :: updateFirstPlayer player_id f ps

/-- Execution of the deferred actions against the game (the trait method
`DeferredAction::execute`).  A `simple` action is a constant closure
returning its scripted result; `GainResourcesDeferred::execute` credits
the player and completes, or errors when the player id is unknown
(`deferred/common.rs`). -/
def effExecute (e : DeferredEff) (g : Game) :
    Game × Except String DeferredActionResult :=
  match e with
  | .simple _ _ res => (g, res)
  | .gainResources player_id resource amount =>
    match g.get_player player_id with
    | none => (g, .error ("Player " ++ player_id ++ " not found"))
    | some _ =>
      let players1 := updateFirstPlayer player_id
        (fun p => { p with resources := p.resources.add resource amount }) g.players
      ({ g with players := players1 }, .ok DeferredActionResult.Completed)

theorem effExecute_deferred_actions (e : DeferredEff) (g : Game) :
    (effExecute e g).1.deferred_actions = g.deferred_actions := by
  cases e with
  | simple a b c => rfl
  | gainResources a b c =>
    simp only [effExecute]
    cases g.get_player a <;> rfl

theorem effExecute_phase (e : DeferredEff) (g : Game) :
    (effExecute e g).1.phase = g.phase := by
  cases e with
  | simple a b c => rfl
  | gainResources a b c =>
    simp only [effExecute]
    cases g.get_player a <;> rfl

/-- The drain loop of `Game::process_deferred_actions` (`game/game.rs`),
given as structural recursion on a fuel bound.  The two queue methods it
calls are absent from the sources and are modelled from the spec:
`DeferredActionQueue::pop_next_action` removes and returns the front
entry, and `DeferredActionQueue::push_front_action` re-inserts the same
entry at the very front (spec §4.3: on `NeedsInput` "reinsert the same
entry at the very front and stop draining", §3: the queue order "is
preserved across re-insertion of a stalled entry").  Every iteration
pops one entry and the modelled effects never enqueue, so fuel equal to
the queue length reproduces the loop exactly. -/
def Game.processDeferredLoop : Nat → Game → Game × Option String
  | 0, g => (g, none)
  | fuel + 1, g =>
    match g.deferred_actions.queue with
    | [] => (g, none)
    | entry :: rest =>
      let g1 : Game :=
        { g with deferred_actions := ⟨rest, g.deferred_actions.insertion_counter⟩ }
      let r := effExecute entry.action g1
      match r.2 with
      | .ok .Completed => Game.processDeferredLoop fuel r.1
      | .ok .NeedsInput =>
        ({ r.1 with deferred_actions :=
            ⟨entry :: r.1.deferred_actions.queue,
             r.1.deferred_actions.insertion_counter⟩ },
         some "Deferred action needs player input")
      | .ok .Remove => Game.processDeferredLoop fuel r.1
      | .error _ => Game.processDeferredLoop fuel r.1

/-- `Game::process_deferred_actions`: drain the deferred queue; stop with
an error when an action needs player input (execution errors are logged
and skipped). -/
def Game.processDeferredActions (g : Game) : Game × Option String :=
  Game.processDeferredLoop g.deferred_actions.queue.length g

theorem processDeferredLoop_phase : ∀ (fuel : Nat) (g : Game),
    (Game.processDeferredLoop fuel g).1.phase = g.phase := by
  intro fuel
  induction fuel with
  | zero => intro g; rfl
  | succ n ih =>
    intro g
    simp only [Game.processDeferredLoop]
    rcases hq : g.deferred_actions.queue with _ | ⟨entry, rest⟩
    · rfl
    · have hp := effExecute_phase entry.action
        { g with deferred_actions := ⟨rest, g.deferred_actions.insertion_counter⟩ }
      rcases hr : (effExecute entry.action
          { g with deferred_actions :=
            ⟨rest, g.deferred_actions.insertion_counter⟩ }).2 with r | r
      · simp [hr, ih, hp]
      · cases r <;> simp [hr, ih, hp]

theorem processDeferredActions_phase (g : Game) :
    (Game.processDeferredActions g).1.phase = g.phase :=
  processDeferredLoop_phase _ g

/-- An empty deferred queue drains to the same state with no stall. -/
theorem processDeferredActions_empty (g : Game)
    (h : g.deferred_actions.queue = []) :
    Game.processDeferredActions g = (g, none) := by
  unfold Game.processDeferredActions
  rw [h]
  rfl

/-- `Game::next_phase`: the generic conditional phase advance.  All
mutating game operations return the final state together with the
`Result` payload (`&mut self` in Rust leaves a state behind also on
`Err`). -/
def Game.next_phase (g : Game) : Game × Except String Unit :=
  match g.phase with
  | .InitialDrafting => ({ g with phase := Phase.Research }, .ok ())
  | .Research =>
    if g.generation = 1 ∧ g.prelude_flag = true then
      ({ g with phase := Phase.Preludes }, .ok ())
    else ({ g with phase := Phase.Action }, .ok ())
  | .Preludes => ({ g with phase := Phase.Action }, .ok ())
  | .Drafting => ({ g with phase := Phase.Research }, .ok ())
  | .Action =>
    (g, .error "Action phase should be ended via end_action_phase() when all players pass")
  | .Production =>
    if g.venus_next then ({ g with phase := Phase.Solar }, .ok ())
    else ({ g with phase := Phase.Intergeneration }, .ok ())
  | .Solar => ({ g with phase := Phase.Intergeneration }, .ok ())
  | .Intergeneration =>
    if g.draft_variant then ({ g with phase := Phase.Drafting }, .ok ())
    else ({ g with phase := Phase.Research }, .ok ())
  | .End => (g, .error "Game has ended")

/-- `Game::all_players_passed`. -/
def Game.all_players_passed (g : Game) : Bool :=
  decide (g.players.length ≤ g.passed_players.length)

/-- `Game::end_action_phase`: requires the Action phase and every player
passed; clears the passed set and moves to Production. -/
def Game.end_action_phase (g : Game) : Game × Except String Unit :=
  if g.phase ≠ Phase.Action then (g, .error "Not in action phase")
  else if g.all_players_passed = false then
    (g, .error "Not all players have passed")
  else ({ g with passed_players := [], phase := Phase.Production }, .ok ())

/-- `Game::move_to_next_active_player`: search forward with wrap-around
for the first player who has not passed; make them active and reset the
action count.  The Rust `for offset in 1..=len` loop is the first hit of
`find?` over `[1, …, len]`; the indexing is always in bounds (`% len`
with a non-empty player list), so the `getD` default is never used. -/
def Game.move_to_next_active_player (g : Game) : Game :=
  if g.players.isEmpty then g
  else
    let current_index :=
      (g.active_player_id.bind
        (fun pid => g.players.findIdx? (fun p => p.id == pid))).getD 0
    match (List.range' 1 g.players.length).find? (fun offset =>
        ! g.passed_players.contains
          ((g.players.getD ((current_index + offset) % g.players.length)
            (Player.new "" "")).id)) with
    | some offset =>
      { g with
        active_player_id := some ((g.players.getD
          ((current_index + offset) % g.players.length) (Player.new "" "")).id)
        actions_taken_this_turn := 0 }
    | none => g

/-- `Game::pass_player`: mark the current player passed; if everyone has
now passed, end the action phase (transitioning to Production),
otherwise move to the next non-passed player. -/
def Game.pass_player (g : Game) : Game × Except String Unit :=
  if g.phase ≠ Phase.Action then (g, .error "Not in action phase")
  else
    match g.active_player_id with
    | none => (g, .error "No active player")
    | some player_id =>
      let g1 :=
        if g.passed_players.contains player_id then g
        else { g with passed_players := g.passed_players ++ [player_id] }
      if g1.all_players_passed then
        match g1.end_action_phase with
        | (g2, .ok _) => (g2, .ok ())
        | (g2, .error e) => (g2, .error e)
      else (g1.move_to_next_active_player, .ok ())

/-- `Game::execute_action`.  The action executor is an out-of-scope
collaborator (spec §6) and is passed in as a function from action, game
and player id to a `Result`-carrying new state. -/
def Game.execute_action
    (action_executor : Action → Game → String → Except String Game)
    (g : Game) (action : Action) : Game × Except String Unit :=
  if g.phase ≠ Phase.Action then (g, .error "Not in action phase")
  else
    match g.processDeferredActions with
    | (g1, some e) => (g1, .error e)
    | (g1, none) =>
      match g1.active_player_id with
      | none => (g1, .error "No active player")
      | some player_id =>
        if action.is_pass then g1.pass_player
        else if 2 ≤ g1.actions_taken_this_turn then
          (g1, .error "Action limit reached: players can take at most 2 actions per turn")
        else
          match action_executor action g1 player_id with
          | .error e => (g1, .error e)
          | .ok g2 =>
            ({ g2 with actions_taken_this_turn := g2.actions_taken_this_turn + 1 },
             .ok ())

/-- Win condition kinds (`game/game.rs`). -/
inductive WinCondition where
  | SoloTr63
  | Terraformed
deriving DecidableEq, Repr

/-- `Game::check_win_conditions`: in solo mode a first-player terraform
rating of at least 63 wins; otherwise a win exactly when every enabled
global parameter is at its maximum (Venus only when the Venus module is
enabled). -/
def Game.check_win_conditions (g : Game) : Option WinCondition :=
  let solo_tr_win : Bool :=
    g.solo_mode &&
      (match g.players.head? with
       | some player => decide (63 ≤ player.terraform_rating)
       | none => false)
  if solo_tr_win then some WinCondition.SoloTr63
  else
    let oceans_maxed := decide ((MAX_OCEANS : Int) ≤ g.global_parameters.get .Oceans)
    let oxygen_maxed := decide ((MAX_OXYGEN : Int) ≤ g.global_parameters.get .Oxygen)
    let temperature_maxed :=
      decide (MAX_TEMPERATURE ≤ g.global_parameters.get .Temperature)
    let venus_maxed :=
      if g.venus_next then decide ((MAX_VENUS : Int) ≤ g.global_parameters.get .Venus)
      else true
    if oceans_maxed && oxygen_maxed && temperature_maxed && venus_maxed then
      some WinCondition.Terraformed
    else none

/-- `Game::increment_generation`: bump the generation, reset the passed
set, clear every player's draft state, reset the draft round. -/
def Game.increment_generation (g : Game) : Game :=
  { g with
    generation := g.generation + 1
    passed_players := []
    players := g.players.map (fun p =>
      { p with draft_hand := [], drafted_cards := [], needs_to_draft := false })
    draft_round := 1 }

/-- `Game::execute_intergeneration_phase`: win check, generation
increment, second win check, then the generic transition; a firing win
forces the phase to `End`.  (The victory-point computations in the
source are pure reads whose results are discarded.) -/
def Game.execute_intergeneration_phase (g : Game) :
    Game × Except String (Option WinCondition) :=
  if g.phase ≠ Phase.Intergeneration then
    (g, .error "Not in intergeneration phase")
  else
    match g.check_win_conditions with
    | some win => ({ g with phase := Phase.End }, .ok (some win))
    | none =>
      let g1 := g.increment_generation
      match g1.check_win_conditions with
      | some win => ({ g1 with phase := Phase.End }, .ok (some win))
      | none =>
        match g1.next_phase with
        | (g2, .ok _) => (g2, .ok none)
        | (g2, .error e) => (g2, .error e)

/-! ### The draft rotation engine (`game/draft.rs`) -/

/-- Draft kinds. -/
inductive DraftType where
  | Initial
  | Standard
  | Prelude
deriving DecidableEq, Repr

/-- Pass directions: `After` = toward the next (higher) seat index,
`Before` = toward the previous (lower) seat index. -/
inductive PassDirection where
  | After
  | Before
deriving DecidableEq, Repr

/-- `Game::get_pass_direction`: Initial draft iteration 2 passes before,
other iterations after; Standard draft passes after on even generations
and before on odd ones; the Prelude draft always passes after. -/
def Game.get_pass_direction (g : Game) (draft_type : DraftType) : PassDirection :=
  match draft_type with
  | .Initial =>
    if g.initial_draft_iteration = 2 then PassDirection.Before
    else PassDirection.After
  | .Standard =>
    if g.generation % 2 = 0 then PassDirection.After
    else PassDirection.Before
  | .Prelude => PassDirection.After

/-- `Game::pass_draft_cards`: rotate the vector of draft hands — `After`
pops the last hand and inserts it at the front (rotate right), `Before`
removes the first hand and pushes it at the back (rotate left) — then
reassign the hands in seat order, marking everyone as needing to draft. -/
def Game.pass_draft_cards (g : Game) (draft_type : DraftType) :
    Game × Except String Unit :=
  let direction := g.get_pass_direction draft_type
  let hands := g.players.map (fun p => p.draft_hand)
  let hands1 :=
    match direction with
    | .After =>
      match hands.getLast? with
      | some last => last :: hands.dropLast
      | none => hands
    | .Before =>
      match hands with
      | [] => hands
      | first :: t => t ++ [first]
  let players1 := (g.players.zip hands1).map (fun pair =>
    { pair.1 with draft_hand := pair.2, needs_to_draft := true })
  ({ g with players := players1 }, .ok ())

/-- `Game::draw_draft_cards` (placeholder card ids, exactly as the
source; the `&mut self` receiver mutates nothing yet). -/
def Game.draw_draft_cards (g : Game) (draft_type : DraftType)
    (player_id : String) : Except String (List String) :=
  match draft_type with
  | .Initial => .ok ((List.range 5).map (fun i => "project_card_" ++ toString i))
  | .Standard => .ok ((List.range 4).map (fun i => "project_card_" ++ toString i))
  | .Prelude => .ok ((List.range 4).map (fun i => "prelude_card_" ++ toString i))

/-- The card-collection loop of `Game::start_draft` round 1 (`?` on each
draw). -/
def collectHands (g : Game) (draft_type : DraftType) :
    List Player → Except String (List (List String))
  | [] => .ok []
  | p :: ps =>
    match g.draw_draft_cards draft_type p.id with
    | .error e => .error e
    | .ok cards =>
      match collectHands g draft_type ps with
      | .error e => .error e
      | .ok rest => .ok (cards :: rest)

/-- `Game::start_draft`: round 1 deals a fresh hand to every player;
later rounds rotate the held hands. -/
def Game.start_draft (g : Game) (draft_type : DraftType) :
    Game × Except String Unit :=
  if g.players.isEmpty then (g, .error "Cannot start draft with no players")
  else if g.draft_round = 1 then
    match collectHands g draft_type g.players with
    | .error e => (g, .error e)
    | .ok cards_per_player =>
      let players1 := (g.players.zip cards_per_player).map (fun pair =>
        { pair.1 with draft_hand := pair.2, needs_to_draft := true })
      ({ g with players := players1 }, .ok ())
  else
    g.pass_draft_cards draft_type

/-- `Game::cards_to_keep`: one card per round for every draft type. -/
def Game.cards_to_keep (g : Game) (draft_type : DraftType)
    (player_id : String) : Nat :=
  match draft_type with
  | .Initial => 1
  | .Standard => 1
  | .Prelude => 1

/-- `Game::get_player_before` (wrapping to the last seat). -/
def Game.get_player_before (g : Game) (player_id : String) : Option String :=
  match g.players.findIdx? (fun p => p.id == player_id) with
  | none => none
  | some pos =>
    if pos = 0 then g.players.getLast?.map (fun p => p.id)
    else (g.players[pos - 1]?).map (fun p => p.id)

/-- `Game::get_player_after` (wrapping to the first seat). -/
def Game.get_player_after (g : Game) (player_id : String) : Option String :=
  match g.players.findIdx? (fun p => p.id == player_id) with
  | none => none
  | some pos =>
    if pos = g.players.length - 1 then g.players.head?.map (fun p => p.id)
    else (g.players[pos + 1]?).map (fun p => p.id)

/-- `Game::finish_draft_round`: every player receives the entire
remaining hand of the neighbour at the trailing edge of the rotation
(read from the pre-transfer state), then all draft hands are cleared. -/
def Game.finish_draft_round (g : Game) (draft_type : DraftType) :
    Game × Except String Unit :=
  let direction := g.get_pass_direction draft_type
  let transfers := g.players.filterMap (fun player =>
    let source_player_id :=
      match direction with
      | .After => g.get_player_before player.id
      | .Before => g.get_player_after player.id
    match source_player_id with
    | none => none
    | some source_id =>
      match g.get_player source_id with
      | none => none
      | some source_player => some (player.id, source_player.draft_hand))
  let g1 := transfers.foldl (fun acc t =>
    let upd := fun p =>
      { p with drafted_cards := p.drafted_cards ++ t.2, needs_to_draft := false }
    { acc with players := updateFirstPlayer t.1 upd acc.players }) g
  let players1 := g1.players.map (fun p => { p with draft_hand := [] })
  ({ g1 with players := players1 }, .ok ())

/-- The post-selection half of `Game::process_draft_selection`, applied
to the state `g1` in which the cards have already been moved: once
everyone has drafted, either rotate for another round or perform the
terminal hand-off. -/
def processDraftTail (g1 : Game) (draft_type : DraftType) :
    Game × Except String Bool :=
  let all_drafted := ! g1.players.any (fun p => p.needs_to_draft)
  if all_drafted then
    let has_remaining_cards := g1.players.any (fun p => 1 < p.draft_hand.length)
    if has_remaining_cards then
      let g2 := { g1 with draft_round := g1.draft_round + 1 }
      match g2.start_draft draft_type with
      | (g3, .ok _) => (g3, .ok false)
      | (g3, .error e) => (g3, .error e)
    else
      match g1.finish_draft_round draft_type with
      | (g3, .ok _) => (g3, .ok true)
      | (g3, .error e) => (g3, .error e)
  else (g1, .ok false)

/-- `Game::process_draft_selection`: validate the selection count and
that every selected card is in the player's draft hand, then move the
cards to the drafted pile and continue with `processDraftTail`. -/
def Game.process_draft_selection (g : Game) (player_id : String)
    (selected_cards : List String) (draft_type : DraftType) :
    Game × Except String Bool :=
  let cards_to_keep := g.cards_to_keep draft_type player_id
  if selected_cards.length ≠ cards_to_keep then
    (g, .error ("Expected " ++ toString cards_to_keep ++ " cards, got " ++
      toString selected_cards.length))
  else
    match g.get_player player_id with
    | none => (g, .error ("Player " ++ player_id ++ " not found"))
    | some player =>
      if selected_cards.any (fun card_id =>
          ! player.draft_hand.contains card_id) then
        (g, .error (match selected_cards.find? (fun card_id =>
            ! player.draft_hand.contains card_id) with
          | some card_id => "Card " ++ card_id ++ " not in draft hand"
          | none => ""))
      else
        let players1 := updateFirstPlayer player_id (fun p =>
          let p1 := selected_cards.foldl (fun acc card_id =>
            { acc with
              drafted_cards := acc.drafted_cards ++ [card_id]
              draft_hand := acc.draft_hand.filter (fun c => c != card_id) }) p
          { p1 with needs_to_draft := false }) g.players
        processDraftTail { g with players := players1 } draft_type

/-! ### Claims C3, C5, C6, C10: phase machine, draft direction, wins,
construction -/

/-- **C3**: in the Action phase, when `pass_player` is invoked and the
passing player is the last not-yet-passed player (after the marking, the
passed set covers all players), the phase becomes Production and the
passed set is cleared; the generic `next_phase` returns an error in the
Action phase and leaves the state unchanged, and no successful
`next_phase` call ever produces the Production phase — the
Action→Production edge exists only through the dedicated end-of-action
operation. -/
theorem C3_pass_to_production (g : Game) (pid : String)
    (hphase : g.phase = Phase.Action)
    (hactive : g.active_player_id = some pid)
    (hlast : g.players.length ≤
      (if g.passed_players.contains pid then g.passed_players
       else g.passed_players ++ [pid]).length) :
    (g.pass_player.1.phase = Phase.Production ∧
     g.pass_player.1.passed_players = [] ∧
     g.pass_player.2 = Except.ok ()) ∧
    (∀ g1 : Game, g1.phase = Phase.Action →
      g1.next_phase =
        (g1, Except.error
          "Action phase should be ended via end_action_phase() when all players pass")) ∧
    (∀ g1 : Game, g1.next_phase.2 = Except.ok () →
      g1.next_phase.1.phase ≠ Phase.Production) := by
  have hguard : ¬ g.phase ≠ Phase.Action := by rw [hphase]; simp
  refine ⟨?_, ?_, ?_⟩
  · unfold Game.pass_player
    rw [if_neg hguard, hactive]
    dsimp only
    by_cases hc : g.passed_players.contains pid
    · rw [if_pos hc]
      rw [if_pos hc] at hlast
      have hall : g.all_players_passed = true := by
        unfold Game.all_players_passed
        exact decide_eq_true hlast
      rw [if_pos hall]
      have hend : g.end_action_phase =
          ({ g with passed_players := [], phase := Phase.Production },
           Except.ok ()) := by
        unfold Game.end_action_phase
        rw [if_neg hguard, if_neg (by rw [hall]; simp)]
      rw [hend]
      exact ⟨rfl, rfl, rfl⟩
    · rw [if_neg hc]
      rw [if_neg hc] at hlast
      have hall : ({ g with
          active_player_id := some pid
          passed_players := g.passed_players ++ [pid] } : Game).all_players_passed
          = true := by
        unfold Game.all_players_passed
        exact decide_eq_true hlast
      rw [if_pos hall]
      have hend : ({ g with
          active_player_id := some pid
          passed_players := g.passed_players ++ [pid] } : Game).end_action_phase =
          ({ g with
            active_player_id := some pid
            passed_players := []
            phase := Phase.Production }, Except.ok ()) := by
        unfold Game.end_action_phase
        rw [if_neg (by show ¬ g.phase ≠ Phase.Action; rw [hphase]; simp),
          if_neg (by rw [hall]; simp)]
      rw [hend]
      exact ⟨rfl, rfl, rfl⟩
  · intro g1 h1
    unfold Game.next_phase
    rw [h1]
  · intro g1 hok
    unfold Game.next_phase at hok ⊢
    cases hp : g1.phase <;> simp only [hp] at hok ⊢
    case InitialDrafting => simp
    case Preludes => simp
    case Research => split <;> simp
    case Drafting => simp
    case Action => simp at hok
    case Production => split <;> simp
    case Solar => simp
    case Intergeneration => split <;> simp
    case End => simp at hok

/-- Two-player game in the Action phase with the first player already
passed and the second active, used to witness C3. -/
def passTestGame : Game :=
  { Game.new "game1" ["Player 1", "Player 2"] 12345 BoardType.Tharsis
      false false false false false false false false with
    phase := Phase.Action
    passed_players := ["Player 1"]
    active_player_id := some "Player 2" }

/-- Witness for C3 at a concrete input: the second of two players passes
and the phase flips to Production with an empty passed set. -/
theorem C3_pass_to_production_witness :
    passTestGame.pass_player.1.phase = Phase.Production ∧
    passTestGame.pass_player.1.passed_players = [] ∧
    passTestGame.pass_player.2 = Except.ok () :=
  (C3_pass_to_production passTestGame "Player 2" rfl rfl (by decide)).1

/-- Three-seat game at a chosen generation with seat hands `h0, h1, h2`,
used to exercise the standard-draft rotation. -/
def draftTestGame (generation : Nat) (h0 h1 h2 : List String) : Game :=
  { Game.new "game1" ["Player 1", "Player 2", "Player 3"] 12345 BoardType.Tharsis
      false false false false false false false false with
    generation := generation
    players := [{ Player.new "Player 1" "Player 1" with draft_hand := h0 },
                { Player.new "Player 2" "Player 2" with draft_hand := h1 },
                { Player.new "Player 3" "Player 3" with draft_hand := h2 }] }

/-- **C5**: the draft pass direction is computed as: Initial draft —
toward lower seat index (`Before`) exactly when the initial draft
iteration is 2; Standard draft — toward lower seat index exactly when
the generation is odd (toward higher when even); Prelude draft — always
toward higher seat index (`After`).  Consequently with 3 players and the
Standard draft, a rotation in generation 1 hands seat 0 the hand
previously held by seat 1, and in generation 2 the hand previously held
by seat 2. -/
theorem C5_pass_direction (g : Game) :
    (g.get_pass_direction DraftType.Initial = PassDirection.Before ↔
      g.initial_draft_iteration = 2) ∧
    (g.get_pass_direction DraftType.Standard = PassDirection.Before ↔
      g.generation % 2 = 1) ∧
    g.get_pass_direction DraftType.Prelude = PassDirection.After ∧
    (∀ h0 h1 h2 : List String,
      ((draftTestGame 1 h0 h1 h2).pass_draft_cards DraftType.Standard).1.players.map
        (fun p => p.draft_hand) = [h1, h2, h0]) ∧
    (∀ h0 h1 h2 : List String,
      ((draftTestGame 2 h0 h1 h2).pass_draft_cards DraftType.Standard).1.players.map
        (fun p => p.draft_hand) = [h2, h0, h1]) := by
  refine ⟨?_, ?_, rfl, ?_, ?_⟩
  · show (if g.initial_draft_iteration = 2 then PassDirection.Before
      else PassDirection.After) = PassDirection.Before ↔ g.initial_draft_iteration = 2
    by_cases h : g.initial_draft_iteration = 2
    · rw [if_pos h]
      simp [h]
    · rw [if_neg h]
      constructor
      · intro hcon; exact absurd hcon (by decide)
      · intro h1; exact absurd h1 h
  · show (if g.generation % 2 = 0 then PassDirection.After
      else PassDirection.Before) = PassDirection.Before ↔ g.generation % 2 = 1
    by_cases h : g.generation % 2 = 0
    · rw [if_pos h]
      constructor
      · intro hcon; exact absurd hcon (by decide)
      · intro h1; omega
    · rw [if_neg h]
      constructor
      · intro h1; omega
      · intro h1; rfl
  · intro h0 h1 h2; rfl
  · intro h0 h1 h2
    simp only [Game.pass_draft_cards, Game.get_pass_direction, draftTestGame]
    rfl

/-- Witness for C5 at a concrete input. -/
theorem C5_pass_direction_witness :
    ((draftTestGame 1 ["a"] ["b"] ["c"]).pass_draft_cards DraftType.Standard).1.players.map
      (fun p => p.draft_hand) = [["b"], ["c"], ["a"]] :=
  (C5_pass_direction (draftTestGame 1 ["a"] ["b"] ["c"])).2.2.2.1 ["a"] ["b"] ["c"]

/-- **C6**: `check_win_conditions` reports a win exactly when all
enabled global parameters are at maximum (Venus counted only when the
Venus module is enabled), or, in solo mode, when the first player's
terraform rating has reached 63 — a condition independent of the
parameters; and whenever the Intergeneration phase operation fires a
win, the phase is forced to `End`. -/
theorem C6_win_conditions (g : Game) :
    ((g.check_win_conditions).isSome = true ↔
      (((MAX_OCEANS : Int) ≤ g.global_parameters.get .Oceans ∧
        (MAX_OXYGEN : Int) ≤ g.global_parameters.get .Oxygen ∧
        MAX_TEMPERATURE ≤ g.global_parameters.get .Temperature ∧
        (g.venus_next = true → (MAX_VENUS : Int) ≤ g.global_parameters.get .Venus)) ∨
       (g.solo_mode = true ∧
         ∃ p, g.players.head? = some p ∧ 63 ≤ p.terraform_rating))) ∧
    (∀ (w : WinCondition) (g1 : Game), g.phase = Phase.Intergeneration →
      g.execute_intergeneration_phase = (g1, Except.ok (some w)) →
      g1.phase = Phase.End) := by
  constructor
  · unfold Game.check_win_conditions
    rcases hh : g.players.head? with _ | p <;>
      by_cases hv : g.venus_next <;>
      simp only [hh, hv, Bool.and_false, Bool.and_true, if_true, if_false] <;>
      split_ifs <;>
      simp_all [Bool.and_eq_true, decide_eq_true_eq] <;>
      tauto
  · intro w g1 hphase hrun
    unfold Game.execute_intergeneration_phase at hrun
    rw [if_neg (by rw [hphase]; simp)] at hrun
    rcases hw : g.check_win_conditions with _ | win
    · rw [hw] at hrun
      dsimp only at hrun
      rcases hw2 : (g.increment_generation).check_win_conditions with _ | win2
      · rw [hw2] at hrun
        dsimp only at hrun
        rcases hn : (g.increment_generation).next_phase with ⟨g2, r⟩
        rcases r with e | u
        · rw [hn] at hrun
          simp at hrun
        · rw [hn] at hrun
          simp at hrun
      · rw [hw2] at hrun
        dsimp only at hrun
        have := congrArg Prod.fst hrun
        simp at this
        rw [← this]
    · rw [hw] at hrun
      dsimp only at hrun
      have := congrArg Prod.fst hrun
      simp at this
      rw [← this]

/-- Solo game in the Intergeneration phase whose lone player has reached
terraform rating 63 with no parameters raised. -/
def soloWinGame : Game :=
  { Game.new "game1" ["Player 1"] 12345 BoardType.Tharsis
      false false false false false false false false with
    phase := Phase.Intergeneration
    players := [{ Player.new "Player 1" "Player 1" with terraform_rating := 63 }] }

/-- Witness for C6 at a concrete input: the solo threshold fires with
parameters unmaxed and the Intergeneration operation ends the game. -/
theorem C6_win_conditions_witness :
    soloWinGame.check_win_conditions.isSome = true ∧
    soloWinGame.execute_intergeneration_phase.1.phase = Phase.End :=
  ⟨(C6_win_conditions soloWinGame).1.mpr
    (Or.inr ⟨rfl, ⟨{ Player.new "Player 1" "Player 1" with terraform_rating := 63 },
      rfl, by decide⟩⟩),
   (C6_win_conditions soloWinGame).2 WinCondition.SoloTr63
     soloWinGame.execute_intergeneration_phase.1 rfl rfl⟩

/-- **C10**: `Game::new` sets solo mode exactly when the player-name list
has length 1; the lone player then starts at terraform rating 14 (rather
than the multiplayer default 20) and a neutral player is created; for
any other player count there is no neutral player. -/
theorem C10_new_solo (id : String) (player_names : List String) (rng_seed : Nat)
    (bt : BoardType) (ce vn co pf p2 tu pm dv : Bool) :
    ((Game.new id player_names rng_seed bt ce vn co pf p2 tu pm dv).solo_mode = true ↔
      player_names.length = 1) ∧
    (player_names.length = 1 →
      (Game.new id player_names rng_seed bt ce vn co pf p2 tu pm dv).players.map
        (fun p => p.terraform_rating) = [14] ∧
      (Game.new id player_names rng_seed bt ce vn co pf p2 tu pm
        dv).neutral_player.isSome = true) ∧
    (player_names.length ≠ 1 →
      (Game.new id player_names rng_seed bt ce vn co pf p2 tu pm dv).neutral_player
        = none ∧
      ∀ p ∈ (Game.new id player_names rng_seed bt ce vn co pf p2 tu pm dv).players,
        p.terraform_rating = 20) := by
  refine ⟨?_, ?_, ?_⟩
  · simp [Game.new]
  · intro h1
    obtain ⟨a, ha⟩ := List.length_eq_one.mp h1
    subst ha
    constructor
    · simp [Game.new, Player.new]
    · simp [Game.new]
  · intro h1
    have hsolo : (player_names.length == 1) = false := by
      simp [h1]
    constructor
    · simp [Game.new, hsolo]
    · intro p hp
      simp [Game.new, hsolo] at hp
      obtain ⟨name, hname, hpe⟩ := hp
      rw [← hpe]
      rfl

/-- Witness for C10 at concrete inputs: one name yields rating 14; two
names yield no neutral player. -/
theorem C10_new_solo_witness :
    (Game.new "g" ["Player 1"] 0 BoardType.Tharsis
        false false false false false false false false).players.map
      (fun p => p.terraform_rating) = [14] ∧
    (Game.new "g" ["P1", "P2"] 0 BoardType.Tharsis
        false false false false false false false false).neutral_player = none :=
  ⟨((C10_new_solo "g" ["Player 1"] 0 BoardType.Tharsis
      false false false false false false false false).2.1 rfl).1,
   ((C10_new_solo "g" ["P1", "P2"] 0 BoardType.Tharsis
      false false false false false false false false).2.2 (by decide)).1⟩

/-! ### Claims C4 and C9: action budget and check-then-act -/

/-- A trivially succeeding action executor (an admissible instance of the
out-of-scope executor collaborator). -/
def trivialExecutor : Action → Game → String → Except String Game :=
  fun _ g _ => Except.ok g

/-- Solo game in the Action phase whose deferred queue holds one effect
that needs input. -/
def stalledGame : Game :=
  { Game.new "game1" ["Player 1"] 12345 BoardType.Tharsis
      false false false false false false false false with
    phase := Phase.Action
    deferred_actions :=
      ⟨[⟨DeferredEff.simple "Player 1" Priority.Default
          (Except.ok DeferredActionResult.NeedsInput), 0⟩], 1⟩ }

/-- **C4 counterexample**: a Pass action is not always accepted in the
Action phase — when the deferred queue stalls on an effect that needs
input, `execute_action` rejects even a Pass. -/
theorem C4_counterexample :
    (Game.execute_action trivialExecutor stalledGame Action.Pass).2 =
      Except.error "Deferred action needs player input" := by
  rfl

/-- `pass_player` succeeds whenever the game is in the Action phase with
an active player set. -/
theorem pass_player_ok (g : Game) (pid : String)
    (hph : g.phase = Phase.Action)
    (hact : g.active_player_id = some pid) :
    (g.pass_player).2 = Except.ok () := by
  unfold Game.pass_player
  rw [if_neg (by rw [hph]; simp), hact]
  dsimp only
  by_cases hc : g.passed_players.contains pid
  · rw [if_pos hc]
    by_cases hall : g.all_players_passed
    · rw [if_pos hall]
      have hend : g.end_action_phase =
          ({ g with passed_players := [], phase := Phase.Production },
           Except.ok ()) := by
        unfold Game.end_action_phase
        rw [if_neg (by rw [hph]; simp), if_neg (by rw [hall]; simp)]
      rw [hend]
    · rw [if_neg hall]
  · rw [if_neg hc]
    by_cases hall : ({ g with
        active_player_id := some pid
        passed_players := g.passed_players ++ [pid] } : Game).all_players_passed
    · rw [if_pos hall]
      have hend : ({ g with
          active_player_id := some pid
          passed_players := g.passed_players ++ [pid] } : Game).end_action_phase =
          ({ g with
            active_player_id := some pid
            passed_players := []
            phase := Phase.Production }, Except.ok ()) := by
        unfold Game.end_action_phase
        rw [if_neg (by show ¬ g.phase ≠ Phase.Action; rw [hph]; simp),
          if_neg (by rw [hall]; simp)]
      rw [hend]
    · rw [if_neg hall]

/-- **C4 (amended)**: in the Action phase, provided the deferred queue
drains without stalling and an active player is set afterwards,
`execute_action` accepts at most 2 non-pass actions per turn: a further
non-pass attempt fails with the action-limit error and leaves the whole
post-drain state (in particular the action count) unchanged, and a
successful non-pass action implies the count was below 2; a Pass action
bypasses the budget and is accepted. -/
theorem C4_budget (aexec : Action → Game → String → Except String Game)
    (g : Game) (a : Action) (pid : String)
    (hphase : g.phase = Phase.Action)
    (hdrain : (g.processDeferredActions).2 = none)
    (hactive : (g.processDeferredActions).1.active_player_id = some pid) :
    (a.is_pass = false →
      2 ≤ (g.processDeferredActions).1.actions_taken_this_turn →
      Game.execute_action aexec g a =
        ((g.processDeferredActions).1,
         Except.error
           "Action limit reached: players can take at most 2 actions per turn")) ∧
    (a.is_pass = false → (Game.execute_action aexec g a).2 = Except.ok () →
      (g.processDeferredActions).1.actions_taken_this_turn < 2) ∧
    (a.is_pass = true → (Game.execute_action aexec g a).2 = Except.ok ()) := by
  have hg1ph : (g.processDeferredActions).1.phase = Phase.Action := by
    rw [processDeferredActions_phase]
    exact hphase
  have hred : Game.execute_action aexec g a =
      (if a.is_pass then (g.processDeferredActions).1.pass_player
       else if 2 ≤ (g.processDeferredActions).1.actions_taken_this_turn then
         ((g.processDeferredActions).1,
          Except.error
            "Action limit reached: players can take at most 2 actions per turn")
       else
         match aexec a (g.processDeferredActions).1 pid with
         | .error e => ((g.processDeferredActions).1, .error e)
         | .ok g2 =>
           ({ g2 with actions_taken_this_turn := g2.actions_taken_this_turn + 1 },
            .ok ())) := by
    unfold Game.execute_action
    rw [if_neg (by rw [hphase]; simp)]
    rcases hpd : g.processDeferredActions with ⟨g1, r⟩
    have hr : r = none := by
      have := hdrain
      rw [hpd] at this
      exact this
    subst hr
    dsimp only
    have hact1 : g1.active_player_id = some pid := by
      have := hactive
      rw [hpd] at this
      exact this
    rw [hact1]
  refine ⟨?_, ?_, ?_⟩
  · intro hnp hbudget
    rw [hred]
    rw [if_neg (by rw [hnp]; simp), if_pos hbudget]
  · intro hnp hok
    by_contra hlt
    have hbudget : 2 ≤ (g.processDeferredActions).1.actions_taken_this_turn := by
      omega
    rw [hred, if_neg (by rw [hnp]; simp), if_pos hbudget] at hok
    simp at hok
  · intro hp
    rw [hred, if_pos hp]
    exact pass_player_ok _ pid hg1ph hactive

/-- Two-player game in the Action phase with an empty deferred queue and
the action budget already used up. -/
def budgetTestGame : Game :=
  { Game.new "game1" ["P1", "P2"] 1 BoardType.Tharsis
      false false false false false false false false with
    phase := Phase.Action
    actions_taken_this_turn := 2 }

/-- Witness for the amended C4 at a concrete input: the third non-pass
action is rejected with the budget error and the state is unchanged,
while a Pass is accepted. -/
theorem C4_budget_witness :
    Game.execute_action trivialExecutor budgetTestGame Action.ConvertHeat =
      (budgetTestGame,
       Except.error
         "Action limit reached: players can take at most 2 actions per turn") ∧
    (Game.execute_action trivialExecutor budgetTestGame Action.Pass).2 =
      Except.ok () :=
  ⟨(C4_budget trivialExecutor budgetTestGame Action.ConvertHeat "P1"
      rfl rfl rfl).1 rfl (Nat.le_refl 2),
   (C4_budget trivialExecutor budgetTestGame Action.Pass "P1"
      rfl rfl rfl).2.2 rfl⟩

theorem collectHands_ok (g : Game) (dt : DraftType) :
    ∀ ps : List Player, ∃ hs, collectHands g dt ps = Except.ok hs := by
  intro ps
  induction ps with
  | nil => exact ⟨[], rfl⟩
  | cons p t ih =>
    obtain ⟨hs, hhs⟩ := ih
    have hdraw : ∃ cards, g.draw_draft_cards dt p.id = Except.ok cards := by
      cases dt <;> exact ⟨_, rfl⟩
    obtain ⟨cards, hcards⟩ := hdraw
    exact ⟨cards :: hs, by simp [collectHands, hcards, hhs]⟩

theorem start_draft_ok (g : Game) (dt : DraftType) (h : g.players ≠ []) :
    (g.start_draft dt).2 = Except.ok () := by
  unfold Game.start_draft
  rw [if_neg (by simp [List.isEmpty_iff, h])]
  by_cases hr : g.draft_round = 1
  · rw [if_pos hr]
    obtain ⟨hs, hhs⟩ := collectHands_ok g dt g.players
    rw [hhs]
  · rw [if_neg hr]
    rfl

theorem updateFirstPlayer_ne_nil (pid : String) (f : Player → Player)
    (l : List Player) (h : l ≠ []) : updateFirstPlayer pid f l ≠ [] := by
  cases l with
  | nil => exact absurd rfl h
  | cons p ps =>
    unfold updateFirstPlayer
    split <;> simp

theorem get_player_ne_nil (g : Game) (pid : String) (p : Player)
    (h : g.get_player pid = some p) : g.players ≠ [] := by
  intro hnil
  unfold Game.get_player at h
  rw [hnil] at h
  simp at h

theorem processDraftTail_no_error (g1 : Game) (dt : DraftType)
    (h : g1.players ≠ []) : ∃ b, (processDraftTail g1 dt).2 = Except.ok b := by
  unfold processDraftTail
  dsimp only
  by_cases hd : (! g1.players.any (fun p => p.needs_to_draft)) = true
  · rw [if_pos hd]
    by_cases hr : g1.players.any (fun p => 1 < p.draft_hand.length) = true
    · rw [if_pos hr]
      rcases hs : ({ g1 with draft_round := g1.draft_round + 1 } : Game).start_draft dt
        with ⟨g3, r⟩
      rcases r with e | u
      · have hok := start_draft_ok
          { g1 with draft_round := g1.draft_round + 1 } dt (by simpa using h)
        rw [hs] at hok
        simp at hok
      · exact ⟨false, rfl⟩
    · rw [if_neg hr]
      rcases hs : g1.finish_draft_round dt with ⟨g3, r⟩
      have h2 : (g1.finish_draft_round dt).2 = Except.ok () := rfl
      rw [hs] at h2
      rcases r with e | u
      · simp at h2
      · exact ⟨true, rfl⟩
  · rw [if_neg hd]
    exact ⟨false, rfl⟩

/-- Solo game in the Action phase whose queue first credits 5 steel to
the player (priority 60) and then stalls on an effect needing input
(priority 100). -/
def partialMutationGame : Game :=
  { Game.new "game1" ["Player 1"] 12345 BoardType.Tharsis
      false false false false false false false false with
    phase := Phase.Action
    deferred_actions :=
      ⟨[⟨DeferredEff.gainResources "Player 1" Resource.Steel 5, 0⟩,
        ⟨DeferredEff.simple "Player 1" Priority.BackOfTheLine
          (Except.ok DeferredActionResult.NeedsInput), 1⟩], 2⟩ }

/-- **C9 counterexample**: `execute_action` can return an error while the
session state has changed: draining runs the gain effect — crediting 5
steel and consuming the queue entry — before the stall error is
surfaced, so validation does not fully precede mutation. -/
theorem C9_counterexample :
    (Game.execute_action trivialExecutor partialMutationGame Action.ConvertHeat).2 =
      Except.error "Deferred action needs player input" ∧
    (Game.execute_action trivialExecutor partialMutationGame
        Action.ConvertHeat).1.players.map (fun p => p.resources.steel) = [5] ∧
    partialMutationGame.players.map (fun p => p.resources.steel) = [0] ∧
    (Game.execute_action trivialExecutor partialMutationGame
        Action.ConvertHeat).1.deferred_actions.queue.length = 1 ∧
    partialMutationGame.deferred_actions.queue.length = 2 ∧
    (Game.execute_action trivialExecutor partialMutationGame
        Action.ConvertHeat).1 ≠ partialMutationGame := by
  exact ⟨rfl, rfl, rfl, rfl, rfl, by decide⟩

/-- **C9 (amended)**: `process_draft_selection` is check-then-act — on
any error the session state is exactly as before the call.
`execute_action`'s own validation is also check-then-act, but it runs
after the deferred queue has been drained: on any error the resulting
state is exactly the pre-call state (when the call is rejected outside
the Action phase) or exactly the state left by deferred-queue
processing, whose executed effects are the only mutations that survive a
failure. -/
theorem C9_check_then_act :
    (∀ (g : Game) (pid : String) (sel : List String) (dt : DraftType) (e : String),
      (g.process_draft_selection pid sel dt).2 = Except.error e →
      (g.process_draft_selection pid sel dt).1 = g) ∧
    (∀ (aexec : Action → Game → String → Except String Game) (g : Game)
        (a : Action) (e : String),
      (Game.execute_action aexec g a).2 = Except.error e →
      (Game.execute_action aexec g a).1 = g ∨
      (Game.execute_action aexec g a).1 = (g.processDeferredActions).1) := by
  constructor
  · intro g pid sel dt e herr
    unfold Game.process_draft_selection at herr ⊢
    dsimp only at herr ⊢
    by_cases h1 : sel.length ≠ g.cards_to_keep dt pid
    · rw [if_pos h1]
    · rw [if_neg h1] at herr ⊢
      cases hp : g.get_player pid with
      | none =>
        rfl
      | some player =>
        rw [hp] at herr
        dsimp only at herr ⊢
        by_cases h2 : sel.any (fun card_id => ! player.draft_hand.contains card_id)
        · rw [if_pos h2]
        · rw [if_neg h2] at herr
          have hne : ({ g with players := updateFirstPlayer pid (fun p =>
              let p1 := sel.foldl (fun acc card_id =>
                { acc with
                  drafted_cards := acc.drafted_cards ++ [card_id]
                  draft_hand := acc.draft_hand.filter (fun c => c != card_id) }) p
              { p1 with needs_to_draft := false }) g.players } : Game).players
              ≠ [] :=
            updateFirstPlayer_ne_nil _ _ _ (get_player_ne_nil g pid player hp)
          obtain ⟨b, hb⟩ := processDraftTail_no_error _ dt hne
          rw [hb] at herr
          simp at herr
  · intro aexec g a e herr
    unfold Game.execute_action at herr ⊢
    by_cases hph : g.phase ≠ Phase.Action
    · rw [if_pos hph] at herr ⊢
      left
      rfl
    · rw [if_neg hph] at herr ⊢
      rcases hpd : g.processDeferredActions with ⟨g1, _ | e1⟩
      · -- the drain succeeded
        rw [hpd] at herr
        dsimp only at herr ⊢
        cases hact : g1.active_player_id with
        | none =>
          right
          rfl
        | some pid =>
          rw [hact] at herr
          dsimp only at herr ⊢
          by_cases hpass : a.is_pass
          · rw [if_pos hpass] at herr
            have hg1ph : g1.phase = Phase.Action := by
              have h2 := processDeferredActions_phase g
              rw [hpd] at h2
              rw [h2]
              exact not_not.mp hph
            have hok := pass_player_ok g1 pid hg1ph hact
            rw [hok] at herr
            simp at herr
          · rw [if_neg hpass] at herr ⊢
            by_cases hb : 2 ≤ g1.actions_taken_this_turn
            · rw [if_pos hb]
              right
              rfl
            · rw [if_neg hb] at herr ⊢
              cases hax : aexec a g1 pid with
              | error e2 =>
                right
                rfl
              | ok g2 =>
                rw [hax] at herr
                simp at herr
      · -- the drain stalled
        rw [hpd] at herr
        right
        rfl

/-- Witness for the amended C9 at a concrete input: a selection with the
wrong count is rejected and the session state is unchanged. -/
theorem C9_check_then_act_witness :
    ((Game.new "game1" ["Player 1", "Player 2"] 12345 BoardType.Tharsis
        false false false false false false false
        false).process_draft_selection "Player 1" [] DraftType.Standard).1 =
      Game.new "game1" ["Player 1", "Player 2"] 12345 BoardType.Tharsis
        false false false false false false false false :=
  C9_check_then_act.1
    (Game.new "game1" ["Player 1", "Player 2"] 12345 BoardType.Tharsis
      false false false false false false false false)
    "Player 1" [] DraftType.Standard "Expected 1 cards, got 0" rfl

end RMars
